import Mathlib

/-
Shallow embedding of the storage and execution engine of the small
single-table database in src/src/main.rs (a Rust SQLite clone).

Modelling conventions:
  - Machine bytes (u8) are Nat values below 256; a Rust Vec<u8> is a
    List Nat.  A Rust str is its UTF-8 byte sequence, also a List Nat.
  - u32 arithmetic uses Nat with explicit bounds (id < 2 ^ 32).
  - The backing file (reached through the raw fd in the source) is
    carried inside the Pager as the field file : List Nat.  Seeking and
    reading or writing at a position become list operations; a read
    returns at most the requested number of bytes and stops at the end
    of the file, a write past the end of the file extends it.
  - A Rust cursor borrows its table; here the table is threaded
    explicitly next to the cursor record.
  - The select loop prints one row per iteration; the model collects
    the printed rows in a list, in print order.
-/

namespace DB

set_option maxRecDepth 4000

/-- Width in bytes of the id column (ROW_ID_SIZE in the source). -/
def ROW_ID_SIZE : Nat := 4

/-- Width in bytes of the username column (ROW_USERNAME_SIZE). -/
def ROW_USERNAME_SIZE : Nat := 32

/-- Width in bytes of the email column (ROW_EMAIL_SIZE). -/
def ROW_EMAIL_SIZE : Nat := 255

/-- Byte offset of the username slot inside a serialized row. -/
def ROW_USERNAME_START : Nat := ROW_ID_SIZE

/-- Byte offset of the email slot inside a serialized row. -/
def ROW_EMAIL_START : Nat := ROW_USERNAME_START + ROW_USERNAME_SIZE

/-- Maximum number of pages of a table (TABLE_MAX_PAGES). -/
def TABLE_MAX_PAGES : Nat := 100

/-- Size in bytes of one page (PAGE_SIZE). -/
def PAGE_SIZE : Nat := 4096

/-- Size in bytes of one serialized row (ROW_SIZE). -/
def ROW_SIZE : Nat := 291

/-- Number of rows that fit in one page (ROWS_PER_PAGE). -/
def ROWS_PER_PAGE : Nat := PAGE_SIZE / ROW_SIZE

/-- Maximum number of rows of a table (TABLE_MAX_ROWS). -/
def TABLE_MAX_ROWS : Nat := ROWS_PER_PAGE * TABLE_MAX_PAGES

/-- The Row struct of the source; the two text fields are str values,
carried here as their UTF-8 byte sequences. -/
@[ext]
structure Row where
  id : Nat
  username : List Nat
  email : List Nat
deriving DecidableEq

/-- Validity of a row value as the parser guarantees it to the engine:
the id fits in a u32, the text fields fit their slots, and every byte
is a byte. -/
def ValidRow (r : Row) : Prop :=
  r.id < 2 ^ 32 ∧
  r.username.length ≤ ROW_USERNAME_SIZE ∧
  r.email.length ≤ ROW_EMAIL_SIZE ∧
  (∀ b ∈ r.username, b < 256) ∧
  (∀ b ∈ r.email, b < 256)

instance (r : Row) : Decidable (ValidRow r) := by
  unfold ValidRow
  infer_instance

/-- Big-endian byte decomposition of a u32 value (row.id.to_be_bytes()
in the source). -/
def u32_to_be_bytes (n : Nat) : List Nat :=
  [n / 2 ^ 24 % 256, n / 2 ^ 16 % 256, n / 2 ^ 8 % 256, n % 256]

/-- Store the bytes bs into the list dest starting at index start, one
byte at a time; this models the enumerated write loops of
serialize_row.  A store past the end of the list is dropped (the Rust
code would panic there; all verified uses stay in bounds). -/
def writeBytesAt (dest : List Nat) (start : Nat) (bs : List Nat) : List Nat :=
  match bs with
  | [] => dest
  | b :: rest => writeBytesAt (dest.set start b) (start + 1) rest

/-- A text field padded with zero bytes up to the width of its slot:
the iter::repeat(0).take(width - len) chain of serialize_row. -/
def padTo (s : List Nat) (width : Nat) : List Nat :=
  s ++ List.replicate (width - s.length) 0

/-- serialize_row of the source: store the four big-endian id bytes
at offset, the zero-padded username bytes at offset + 4 and the
zero-padded email bytes at offset + 4 + 32, one byte at a time. -/
def serialize_row (row : Row) (destination : List Nat) (offset : Nat) : List Nat :=
  let id_bytes := u32_to_be_bytes row.id
  let d0 := writeBytesAt destination offset id_bytes
  let d1 := writeBytesAt d0 (offset + ROW_ID_SIZE) (padTo row.username ROW_USERNAME_SIZE)
  writeBytesAt d1 (offset + ROW_ID_SIZE + ROW_USERNAME_SIZE) (padTo row.email ROW_EMAIL_SIZE)

/-- The iterator position search source[offset..].iter().position(|x| x == 0):
index of the first zero byte of a list, if any. -/
def position0 (l : List Nat) : Option Nat :=
  match l with
  | [] => none
  | b :: rest => if b = 0 then some 0 else (position0 rest).map (· + 1)

/-- deserialize_string of the source: scan source from offset for the
first zero byte; if it lies inside the slot return the bytes before
it, otherwise return the whole slot. -/
def deserialize_string (source : List Nat) (offset : Nat) (length : Nat) : List Nat :=
  match position0 (source.drop offset) with
  | some p => if p < length then (source.drop offset).take p else (source.drop offset).take length
  | none => (source.drop offset).take length

/-- deserialize_row of the source: read the id big-endian, then the
two text fields through deserialize_string. -/
def deserialize_row (source : List Nat) (offset : Nat) : Row :=
  { id := source.getD offset 0 * 2 ^ 24 + source.getD (offset + 1) 0 * 2 ^ 16 +
      source.getD (offset + 2) 0 * 2 ^ 8 + source.getD (offset + 3) 0,
    username := deserialize_string source (offset + ROW_USERNAME_START) ROW_USERNAME_SIZE,
    email := deserialize_string source (offset + ROW_EMAIL_START) ROW_EMAIL_SIZE }

/-- A text field as deserialization observes it: the bytes up to the
first zero byte, or the whole field when it has none.  This is the
comparison target the specification describes for the round trip. -/
def truncZ (s : List Nat) : List Nat :=
  s.takeWhile (fun b => b != 0)

/-- A row as a round trip through the codec observes it: the id exact,
each text field truncated at its first zero byte. -/
def normRow (r : Row) : Row :=
  { id := r.id, username := truncZ r.username, email := truncZ r.email }

/-- The 291 bytes of a serialized row, in slot order. -/
def encRow (r : Row) : List Nat :=
  u32_to_be_bytes r.id ++ padTo r.username ROW_USERNAME_SIZE ++ padTo r.email ROW_EMAIL_SIZE

/-- The Pager struct: the backing file stands in for the raw fd, the
byte length of the file as recorded at open, and the 100 page slots;
an empty slot is the cache-miss state. -/
structure Pager where
  file : List Nat
  file_length : Nat
  pages : List (List Nat)
deriving DecidableEq

/-- Pager::new, abstracting the opened path by the byte contents of
the file backing it: record the file length and fill the 100 page
slots with empty buffers. -/
def Pager.new (file : List Nat) : Pager :=
  { file := file, file_length := file.length, pages := List.replicate TABLE_MAX_PAGES [] }

/-- Pager::allocate_page: on a cache miss, build a zeroed page,
compute the count of whole-plus-partial pages on disk, and when
page_num does not exceed it overlay the page with the file bytes at
the page position (a read at or past the end of the file yields
nothing and leaves the zero prefill). -/
def Pager.allocate_page (pg : Pager) (page_num : Nat) : Pager :=
  if (pg.pages.getD page_num []).length = 0 then
    let npages := pg.file_length / PAGE_SIZE +
      (if pg.file_length % PAGE_SIZE ≠ 0 then 1 else 0)
    if page_num ≤ npages then
      let data := (pg.file.drop (page_num * PAGE_SIZE)).take PAGE_SIZE
      { pg with pages := pg.pages.set page_num (data ++ List.replicate (PAGE_SIZE - data.length) 0) }
    else
      { pg with pages := pg.pages.set page_num (List.replicate PAGE_SIZE 0) }
  else pg

/-- A write of data into a file at byte position pos, extending the
file (zero filled) when the position lies past its end; this models
seek followed by write on the fd. -/
def fileWrite (file : List Nat) (pos : Nat) (data : List Nat) : List Nat :=
  let f := file ++ List.replicate (pos - file.length) 0
  f.take pos ++ data ++ f.drop (pos + data.length)

/-- Pager::flush: write the first size bytes of page page_num to the
file at position page_num * PAGE_SIZE. -/
def Pager.flush (pg : Pager) (page_num : Nat) (size : Nat) : Pager :=
  { pg with file := fileWrite pg.file (page_num * PAGE_SIZE) ((pg.pages.getD page_num []).take size) }

/-- The Table struct: a row count and a pager. -/
structure Table where
  nrows : Nat
  pager : Pager
deriving DecidableEq

/-- db_open, abstracting the path by the contents of the file behind
it: build a pager and recover the row count as file_length / ROW_SIZE. -/
def db_open (file : List Nat) : Table :=
  let pager := Pager.new file
  { nrows := pager.file_length / ROW_SIZE, pager := pager }

/-- The Cursor struct without its borrowed table reference; the table
is passed alongside wherever the source dereferences the borrow. -/
structure Cursor where
  rowno : Nat
  end_of_table : Bool
deriving DecidableEq

/-- Cursor::from_start. -/
def Cursor.from_start (table : Table) : Cursor :=
  { rowno := 0, end_of_table := table.nrows == 0 }

/-- Cursor::from_end. -/
def Cursor.from_end (table : Table) : Cursor :=
  { rowno := table.nrows, end_of_table := true }

/-- Cursor::advance; nrows is the row count of the borrowed table. -/
def Cursor.advance (c : Cursor) (nrows : Nat) : Cursor :=
  { rowno := c.rowno + 1, end_of_table := c.rowno + 1 == nrows }

/-- cursor_value: page number and byte offset of the row the cursor
points at, materializing the page as a side effect. -/
def cursor_value (t : Table) (c : Cursor) : (Nat × Nat) × Table :=
  let page_num := c.rowno / ROWS_PER_PAGE
  let pager := t.pager.allocate_page page_num
  let row_offset := c.rowno % ROWS_PER_PAGE
  ((page_num, row_offset * ROW_SIZE), { t with pager := pager })

/-- execute_insert: fail when the table is full, otherwise serialize
the row at the end cursor position and bump the row count. -/
def execute_insert (row : Row) (t : Table) : Except String Table :=
  if TABLE_MAX_ROWS ≤ t.nrows then Except.error "table is full"
  else
    let c := Cursor.from_end t
    let v := cursor_value t c
    let page_num := v.1.1
    let offset := v.1.2
    let t1 := v.2
    let page := serialize_row row (t1.pager.pages.getD page_num []) offset
    Except.ok { nrows := t1.nrows + 1,
                pager := { t1.pager with pages := t1.pager.pages.set page_num page } }

/-- The while loop of execute_select, with explicit fuel; each
iteration locates the row, deserializes and emits it, and advances. -/
def selectLoop (t : Table) (c : Cursor) (fuel : Nat) : List Row × Table :=
  match fuel with
  | 0 => ([], t)
  | fuel + 1 =>
    if c.end_of_table then ([], t)
    else
      let v := cursor_value t c
      let row := deserialize_row (v.2.pager.pages.getD v.1.1 []) v.1.2
      let rest := selectLoop v.2 (c.advance v.2.nrows) fuel
      (row :: rest.1, rest.2)

/-- execute_select: scan from the start cursor to the end of the
table, returning the emitted rows in print order. -/
def execute_select (t : Table) : List Row × Table :=
  selectLoop t (Cursor.from_start t) (t.nrows + 1)

/-- The flush loop over the full pages in Drop for Table. -/
def flushFullPages (pg : Pager) (num_full_pages : Nat) : Pager :=
  (List.range num_full_pages).foldl
    (fun acc i => if 0 < (acc.pages.getD i []).length then acc.flush i PAGE_SIZE else acc) pg

/-- Drop for Table: flush every materialized full page whole, then
flush the materialized partial page, if any, up to its last live row;
the result is the final pager (the file is then closed). -/
def Table.drop (t : Table) : Pager :=
  let num_full_pages := t.nrows / ROWS_PER_PAGE
  let pg := flushFullPages t.pager num_full_pages
  let num_additional_rows := t.nrows % ROWS_PER_PAGE
  if 0 < num_additional_rows then
    if 0 < (pg.pages.getD num_full_pages []).length then
      pg.flush num_full_pages (num_additional_rows * ROW_SIZE)
    else pg
  else pg

/-- One insert as main keeps table state: on success the new table, on
an error the table untouched. -/
def insertStep (t : Table) (r : Row) : Table :=
  match execute_insert r t with
  | Except.ok t1 => t1
  | Except.error _ => t

/-- A sequence of inserts, keeping state across failures. -/
def insertAll (rs : List Row) (t : Table) : Table :=
  rs.foldl insertStep t

/-- A sequence of inserts that stops at the first error. -/
def insertAllE (rs : List Row) (t : Table) : Except String Table :=
  match rs with
  | [] => Except.ok t
  | r :: rest =>
    match execute_insert r t with
    | Except.ok t1 => insertAllE rest t1
    | Except.error e => Except.error e

/-- The statement kinds of the source. -/
inductive StatementKind where
  | Insert
  | Select
deriving DecidableEq

/-- The Statement struct of the source. -/
structure Statement where
  kind : StatementKind
  row_to_insert : Option Row
deriving DecidableEq

/-- The UTF-8 bytes of a piece of text, as Rust str::bytes and
str::len see them; text is carried as its character list (the data of
a Lean String), encoded character by character. -/
def strBytes (w : List Char) : List Nat :=
  (w.map String.utf8EncodeChar).flatten.map (fun b => b.toNat)

/-- ASCII whitespace in the sense of split_ascii_whitespace. -/
def isAsciiWhitespace (c : Char) : Bool :=
  c == ' ' || c == '\t' || c == '\n' || c == '\x0c' || c == '\r'

/-- The word accumulator loop behind split_ascii_whitespace. -/
def wordsOfAux : List Char → List Char → List (List Char)
  | [], acc => if acc.isEmpty then [] else [acc.reverse]
  | c :: rest, acc =>
    if isAsciiWhitespace c then
      if acc.isEmpty then wordsOfAux rest [] else acc.reverse :: wordsOfAux rest []
    else wordsOfAux rest (c :: acc)

/-- str::split_ascii_whitespace: the maximal whitespace-free words of
the command, in order, empty pieces dropped. -/
def split_ascii_whitespace (s : String) : List (List Char) :=
  wordsOfAux s.data []

/-- str::parse::<u32>: an optional leading plus sign, then one or more
ASCII digits, and the value must fit in a u32. -/
def parse_u32 (w : List Char) : Option Nat :=
  let t := match w with
    | '+' :: rest => rest
    | _ => w
  if !t.isEmpty && t.all (fun c => c.isDigit) then
    let n := t.foldl (fun acc c => acc * 10 + (c.toNat - 48)) 0
    if n < 2 ^ 32 then some n else none
  else none

/-- prepare_statement of the source: recognize insert with exactly
four words, enforcing the slot widths on the text fields and u32 range
on the id, and recognize select. -/
def prepare_statement (command : String) : Option Statement :=
  if "insert ".data.isPrefixOf command.data then
    let words := split_ascii_whitespace command
    if words.length == 4 then
      let idstr := words.getD 1 []
      let username := words.getD 2 []
      let email := words.getD 3 []
      if ROW_USERNAME_SIZE < (strBytes username).length ||
          ROW_EMAIL_SIZE < (strBytes email).length then none
      else
        match parse_u32 idstr with
        | some n =>
          some ⟨StatementKind.Insert, some ⟨n, strBytes username, strBytes email⟩⟩
        | none => none
    else none
  else if command.data == "select".data || "select ".data.isPrefixOf command.data then
    some ⟨StatementKind.Select, none⟩
  else none

/-- A sample row used as the concrete input of witnesses and
counterexamples: id 1, username jdoe, email a short byte string. -/
def rowJdoe : Row :=
  { id := 1, username := [106, 100, 111, 101], email := [106, 100, 64, 101, 120] }

/-- The rows of rs that live on page p: rows 14 p .. 14 p + 13. -/
def chunkOf (rs : List Row) (p : Nat) : List Row :=
  (rs.drop (ROWS_PER_PAGE * p)).take ROWS_PER_PAGE

/-- The 4096 bytes of a page holding exactly the rows of chunk packed
from offset 0, the tail zero. -/
def pageOf (chunk : List Row) : List Nat :=
  (chunk.map encRow).flatten ++ List.replicate (PAGE_SIZE - ROW_SIZE * chunk.length) 0

/-- Structural well-formedness of a pager: 100 page slots, recorded
file length accurate, every materialized slot of exactly 4096 bytes. -/
def PagerWF (pg : Pager) : Prop :=
  pg.pages.length = TABLE_MAX_PAGES ∧
  pg.file_length = pg.file.length ∧
  ∀ p, p < TABLE_MAX_PAGES →
    pg.pages.getD p [] = [] ∨ (pg.pages.getD p []).length = PAGE_SIZE

/-- Full description of a table built by inserting the rows rs into a
table opened on an empty file: the row count matches, the file is
still empty, and page p is materialized with exactly the rows of its
chunk iff the chunk is nonempty. -/
def TableInv (rs : List Row) (t : Table) : Prop :=
  t.nrows = rs.length ∧
  t.pager.file = [] ∧
  t.pager.file_length = 0 ∧
  t.pager.pages.length = TABLE_MAX_PAGES ∧
  ∀ p, p < TABLE_MAX_PAGES →
    t.pager.pages.getD p [] =
      (if ROWS_PER_PAGE * p < rs.length then pageOf (chunkOf rs p) else [])

/-- Weakest page description a select scan needs: each page holding
live rows is either already materialized with its chunk, or absent
with the chunk as the content its materialization would load. -/
def GoodPages (rs : List Row) (pg : Pager) : Prop :=
  pg.pages.length = TABLE_MAX_PAGES ∧
  ∀ p, p < TABLE_MAX_PAGES → ROWS_PER_PAGE * p < rs.length →
    (pg.pages.getD p [] = pageOf (chunkOf rs p) ∨
      (pg.pages.getD p [] = [] ∧
        (pg.allocate_page p).pages.getD p [] = pageOf (chunkOf rs p)))

/-- The cursor invariant of the specification, for a table of nrows
rows. -/
def CursorInv (nrows : Nat) (c : Cursor) : Prop :=
  (c.end_of_table = true ↔ c.rowno = nrows) ∧ c.rowno ≤ nrows

instance (nrows : Nat) (c : Cursor) : Decidable (CursorInv nrows c) := by
  unfold CursorInv
  infer_instance

instance (pg : Pager) : Decidable (PagerWF pg) := by
  unfold PagerWF
  infer_instance

instance (rs : List Row) (t : Table) : Decidable (TableInv rs t) := by
  unfold TableInv
  infer_instance

/-- All rows of a list valid. -/
def ValidRows (rs : List Row) : Prop :=
  ∀ r ∈ rs, ValidRow r

instance (rs : List Row) : Decidable (ValidRows rs) := by
  unfold ValidRows
  infer_instance

theorem ROW_ID_SIZE_eq : ROW_ID_SIZE = 4 := rfl

theorem ROW_USERNAME_SIZE_eq : ROW_USERNAME_SIZE = 32 := rfl

theorem ROW_EMAIL_SIZE_eq : ROW_EMAIL_SIZE = 255 := rfl

theorem ROW_USERNAME_START_eq : ROW_USERNAME_START = 4 := rfl

theorem ROW_EMAIL_START_eq : ROW_EMAIL_START = 36 := rfl

theorem TABLE_MAX_PAGES_eq : TABLE_MAX_PAGES = 100 := rfl

theorem PAGE_SIZE_eq : PAGE_SIZE = 4096 := rfl

theorem ROW_SIZE_eq : ROW_SIZE = 291 := rfl

theorem ROWS_PER_PAGE_eq : ROWS_PER_PAGE = 14 := rfl

theorem TABLE_MAX_ROWS_eq : TABLE_MAX_ROWS = 1400 := rfl

theorem getD_drop (l : List Nat) (m i : Nat) :
    (l.drop m).getD i 0 = l.getD (m + i) 0 := by
  simp [List.getD_eq_getElem?_getD, List.getElem?_drop]

theorem getD_append_left {A : List Nat} (B : List Nat) {i : Nat} (h : i < A.length) :
    (A ++ B).getD i 0 = A.getD i 0 := by
  simp [List.getD_eq_getElem?_getD, List.getElem?_append_left h]

theorem getD_append_right {A : List Nat} (B : List Nat) {i : Nat} (h : A.length ≤ i) :
    (A ++ B).getD i 0 = B.getD (i - A.length) 0 := by
  simp [List.getD_eq_getElem?_getD, List.getElem?_append_right h]

theorem getD_set_ne (l : List Nat) (b : Nat) {i j : Nat} (h : i ≠ j) :
    (l.set i b).getD j 0 = l.getD j 0 := by
  simp [List.getD_eq_getElem?_getD, List.getElem?_set_ne h]

theorem set_len_append (A : List Nat) (b0 b : Nat) (B : List Nat) :
    (A ++ b0 :: B).set A.length b = A ++ b :: B := by
  induction A with
  | nil => rfl
  | cons a A ih => simp only [List.cons_append, List.length_cons, List.set_cons_succ, ih]

theorem writeBytesAt_length (bs : List Nat) :
    ∀ (d : List Nat) (s : Nat), (writeBytesAt d s bs).length = d.length := by
  induction bs with
  | nil => intro d s; rfl
  | cons b rest ih => intro d s; rw [writeBytesAt, ih, List.length_set]

theorem writeBytesAt_appendLen (bs : List Nat) :
    ∀ (A B : List Nat), bs.length ≤ B.length →
      writeBytesAt (A ++ B) A.length bs = A ++ (bs ++ B.drop bs.length) := by
  induction bs with
  | nil => intro A B _; simp [writeBytesAt]
  | cons b rest ih =>
    intro A B h
    match B with
    | [] => simp at h
    | b0 :: B =>
      rw [writeBytesAt, set_len_append]
      have h2 : rest.length ≤ B.length := by
        simp only [List.length_cons] at h
        omega
      have e1 : A ++ b :: B = (A ++ [b]) ++ B := by simp
      have e2 : A.length + 1 = (A ++ [b]).length := by simp
      rw [e1, e2, ih (A ++ [b]) B h2]
      simp [List.drop_succ_cons]

theorem writeBytesAt_splice (bs dest : List Nat) (start : Nat)
    (h : start + bs.length ≤ dest.length) :
    writeBytesAt dest start bs = dest.take start ++ (bs ++ dest.drop (start + bs.length)) := by
  have hs : start ≤ dest.length := by omega
  have hlt : (dest.take start).length = start := by
    rw [List.length_take]
    omega
  calc writeBytesAt dest start bs
      = writeBytesAt (dest.take start ++ dest.drop start) (dest.take start).length bs := by
        rw [List.take_append_drop, hlt]
    _ = dest.take start ++ (bs ++ (dest.drop start).drop bs.length) := by
        apply writeBytesAt_appendLen
        rw [List.length_drop]
        omega
    _ = dest.take start ++ (bs ++ dest.drop (start + bs.length)) := by
        rw [List.drop_drop]

theorem writeBytesAt_chain (a b : List Nat) :
    ∀ (d : List Nat) (s : Nat),
      writeBytesAt d s (a ++ b) = writeBytesAt (writeBytesAt d s a) (s + a.length) b := by
  induction a with
  | nil => intro d s; simp [writeBytesAt]
  | cons x rest ih =>
    intro d s
    rw [List.cons_append, writeBytesAt, writeBytesAt, ih]
    congr 1
    simp only [List.length_cons]
    omega

theorem writeBytesAt_frame (bs : List Nat) :
    ∀ (d : List Nat) (start j : Nat), (j < start ∨ start + bs.length ≤ j) →
      (writeBytesAt d start bs).getD j 0 = d.getD j 0 := by
  induction bs with
  | nil => intro d s j _; rfl
  | cons b rest ih =>
    intro d s j h
    simp only [List.length_cons] at h
    have h1 : j < s + 1 ∨ (s + 1) + rest.length ≤ j := by omega
    rw [writeBytesAt, ih _ _ _ h1]
    exact getD_set_ne d b (by omega)

theorem padTo_length {s : List Nat} {w : Nat} (h : s.length ≤ w) :
    (padTo s w).length = w := by
  simp only [padTo, List.length_append, List.length_replicate]
  omega

theorem encRow_length {r : Row} (h : ValidRow r) : (encRow r).length = 291 := by
  have h2 : r.username.length ≤ 32 := h.2.1
  have h3 : r.email.length ≤ 255 := h.2.2.1
  simp only [encRow, u32_to_be_bytes, padTo, List.length_append, List.length_replicate,
    List.length_cons, List.length_nil, ROW_USERNAME_SIZE_eq, ROW_EMAIL_SIZE_eq]
  omega

theorem serialize_row_eq (row : Row) (dest : List Nat) (offset : Nat)
    (h : row.username.length ≤ ROW_USERNAME_SIZE) :
    serialize_row row dest offset = writeBytesAt dest offset (encRow row) := by
  have h32 : (padTo row.username ROW_USERNAME_SIZE).length = ROW_USERNAME_SIZE := padTo_length h
  have h4 : (u32_to_be_bytes row.id).length = ROW_ID_SIZE := rfl
  simp only [serialize_row, encRow]
  rw [writeBytesAt_chain, writeBytesAt_chain, h4, List.length_append, h4, h32,
    ← Nat.add_assoc]

theorem deserialize_string_zero (l : List Nat) (width : Nat) :
    deserialize_string l 0 width =
      (match position0 l with
      | some p => if p < width then l.take p else l.take width
      | none => l.take width) := by
  simp [deserialize_string]

theorem ds_aux (rest : List Nat) (s : List Nat) :
    ∀ (width : Nat), s.length ≤ width →
      deserialize_string (s ++ (List.replicate (width - s.length) 0 ++ rest)) 0 width
        = truncZ s := by
  induction s with
  | nil =>
    intro width _
    simp only [List.nil_append, List.length_nil, Nat.sub_zero, truncZ, List.takeWhile_nil]
    cases width with
    | zero =>
      rw [deserialize_string_zero]
      cases hp : position0 (List.replicate 0 0 ++ rest) <;> simp
    | succ w =>
      rw [deserialize_string_zero]
      simp [List.replicate_succ, position0]
  | cons b s ih =>
    intro width h
    cases width with
    | zero => simp at h
    | succ w =>
      have hc : Nat.succ w - (b :: s).length = w - s.length := by
        simp only [List.length_cons]
        omega
      rw [hc]
      by_cases hb : b = 0
      · subst hb
        rw [deserialize_string_zero]
        simp [position0, truncZ]
      · have hsw : s.length ≤ w := by
          simp only [List.length_cons] at h
          omega
        have IH := ih w hsw
        rw [deserialize_string_zero] at IH ⊢
        simp only [List.cons_append]
        rw [show position0 (b :: (s ++ (List.replicate (w - s.length) 0 ++ rest)))
            = (position0 (s ++ (List.replicate (w - s.length) 0 ++ rest))).map (· + 1) by
          simp [position0, hb]]
        rw [show truncZ (b :: s) = b :: truncZ s by simp [truncZ, List.takeWhile_cons, hb]]
        cases hp : position0 (s ++ (List.replicate (w - s.length) 0 ++ rest)) with
        | none =>
          rw [hp] at IH
          have IH1 : List.take w (s ++ (List.replicate (w - s.length) 0 ++ rest))
              = truncZ s := IH
          simp only [Option.map_none', List.take_succ_cons]
          exact congrArg (List.cons b) IH1
        | some p =>
          rw [hp] at IH
          have IH1 : (if p < w then List.take p (s ++ (List.replicate (w - s.length) 0 ++ rest))
              else List.take w (s ++ (List.replicate (w - s.length) 0 ++ rest)))
              = truncZ s := IH
          simp only [Option.map_some', List.take_succ_cons]
          by_cases hpw : p < w
          · rw [if_pos hpw] at IH1
            rw [if_pos (by omega)]
            exact congrArg (List.cons b) IH1
          · rw [if_neg hpw] at IH1
            rw [if_neg (by omega)]
            exact congrArg (List.cons b) IH1

theorem deserialize_string_slot {source : List Nat} {offset width : Nat} {s rest : List Nat}
    (hlen : s.length ≤ width)
    (h : source.drop offset = s ++ (List.replicate (width - s.length) 0 ++ rest)) :
    deserialize_string source offset width = truncZ s := by
  have haux := ds_aux rest s width hlen
  rw [deserialize_string_zero] at haux
  rw [deserialize_string, h]
  exact haux

theorem deserialize_row_enc {source : List Nat} {offset : Nat} {r : Row} {rest : List Nat}
    (hv : ValidRow r) (h : source.drop offset = encRow r ++ rest) :
    deserialize_row source offset = normRow r := by
  have hid : r.id < 2 ^ 32 := hv.1
  have hu : r.username.length ≤ 32 := hv.2.1
  have he : r.email.length ≤ 255 := hv.2.2.1
  have hb : ∀ i, source.getD (offset + i) 0 = (encRow r ++ rest).getD i 0 := by
    intro i
    rw [← getD_drop source offset i, h]
  have hb4 : ∀ i, i < 4 → (encRow r ++ rest).getD i 0 = (u32_to_be_bytes r.id).getD i 0 := by
    intro i hi
    rw [encRow, List.append_assoc, List.append_assoc]
    exact getD_append_left _ (by simp [u32_to_be_bytes]; omega)
  have hdu : source.drop (offset + ROW_USERNAME_START) =
      r.username ++ (List.replicate (ROW_USERNAME_SIZE - r.username.length) 0 ++
        (padTo r.email ROW_EMAIL_SIZE ++ rest)) := by
    rw [← List.drop_drop, h, encRow, u32_to_be_bytes]
    simp [padTo, ROW_USERNAME_START_eq]
  have hde : source.drop (offset + ROW_EMAIL_START) =
      r.email ++ (List.replicate (ROW_EMAIL_SIZE - r.email.length) 0 ++ rest) := by
    rw [← List.drop_drop, h, encRow]
    rw [show u32_to_be_bytes r.id ++ padTo r.username ROW_USERNAME_SIZE ++
        padTo r.email ROW_EMAIL_SIZE ++ rest =
      (u32_to_be_bytes r.id ++ padTo r.username ROW_USERNAME_SIZE) ++
        (padTo r.email ROW_EMAIL_SIZE ++ rest) by simp [List.append_assoc]]
    rw [show (ROW_EMAIL_START : Nat) =
        (u32_to_be_bytes r.id ++ padTo r.username ROW_USERNAME_SIZE).length by
      simp [u32_to_be_bytes, padTo_length hu, ROW_EMAIL_START_eq, ROW_USERNAME_SIZE_eq]]
    rw [List.drop_left]
    simp [padTo]
  ext1
  · show (deserialize_row source offset).id = r.id
    simp only [deserialize_row]
    rw [show source.getD offset 0 = source.getD (offset + 0) 0 by rw [Nat.add_zero]]
    rw [hb 0, hb 1, hb 2, hb 3,
      hb4 0 (by omega), hb4 1 (by omega), hb4 2 (by omega), hb4 3 (by omega)]
    simp only [u32_to_be_bytes, List.getD_cons_zero, List.getD_cons_succ]
    have e24 : (2 : Nat) ^ 24 = 16777216 := by norm_num
    have e16 : (2 : Nat) ^ 16 = 65536 := by norm_num
    have e8 : (2 : Nat) ^ 8 = 256 := by norm_num
    have e32 : (2 : Nat) ^ 32 = 4294967296 := by norm_num
    rw [e24, e16, e8] at *
    rw [e32] at hid
    show r.id / 16777216 % 256 * 16777216 + r.id / 65536 % 256 * 65536 +
      r.id / 256 % 256 * 256 + r.id % 256 = (normRow r).id
    simp only [normRow]
    omega
  · show (deserialize_row source offset).username = (normRow r).username
    simp only [deserialize_row, normRow]
    exact deserialize_string_slot hu hdu
  · show (deserialize_row source offset).email = (normRow r).email
    simp only [deserialize_row, normRow]
    exact deserialize_string_slot he hde

/-- Claim C1: deserializing the 291-byte buffer produced by
serializing a valid row r yields the id of r exactly and each text
field up to its first zero byte, or whole when it has none. -/
theorem C1_round_trip (r : Row) (buf : List Nat) (hv : ValidRow r) (hlen : buf.length = 291) :
    deserialize_row (serialize_row r buf 0) 0 = normRow r := by
  have henc := encRow_length hv
  have hsp : serialize_row r buf 0 = encRow r := by
    rw [serialize_row_eq r buf 0 hv.2.1, writeBytesAt_splice _ _ _ (by omega)]
    simp [henc, hlen, List.drop_eq_nil_of_le]
  refine @deserialize_row_enc _ _ _ [] hv ?_
  rw [hsp]
  simp

set_option maxRecDepth 4000 in
/-- Witness for C1 at a concrete row and buffer. -/
theorem C1_round_trip_witness :
    deserialize_row (serialize_row rowJdoe (List.replicate 291 7) 0) 0 = normRow rowJdoe :=
  C1_round_trip rowJdoe (List.replicate 291 7) (by decide) (by rfl)

theorem getD_take {l : List Nat} {n i : Nat} (h : i < n) :
    (l.take n).getD i 0 = l.getD i 0 := by
  simp [List.getD_eq_getElem?_getD, List.getElem?_take, h]

theorem getD_set_self (l : List Nat) (b : Nat) {i : Nat} (h : i < l.length) :
    (l.set i b).getD i 0 = b := by
  simp [List.getD_eq_getElem?_getD, List.getElem?_set_self h]

theorem getD_set_self_list (ls : List (List Nat)) (pg : List Nat) {p : Nat}
    (h : p < ls.length) :
    (ls.set p pg).getD p [] = pg := by
  simp [List.getD_eq_getElem?_getD, List.getElem?_set_self h]

theorem getD_set_ne_list (ls : List (List Nat)) (pg : List Nat) {p q : Nat}
    (h : p ≠ q) :
    (ls.set p pg).getD q [] = ls.getD q [] := by
  simp [List.getD_eq_getElem?_getD, List.getElem?_set_ne h]

theorem position0_lt_length {A : List Nat} {p : Nat} (h : position0 A = some p) :
    p < A.length := by
  induction A generalizing p with
  | nil => simp [position0] at h
  | cons b rest ih =>
    simp only [List.length_cons]
    by_cases hb : b = 0
    · simp [position0, hb] at h
      omega
    · simp only [position0, if_neg hb] at h
      cases hq : position0 rest with
      | none => rw [hq] at h; simp at h
      | some q =>
        rw [hq] at h
        simp at h
        have := ih hq
        omega

theorem position0_append_some {A : List Nat} {p : Nat} (h : position0 A = some p)
    (B : List Nat) : position0 (A ++ B) = some p := by
  induction A generalizing p with
  | nil => simp [position0] at h
  | cons b rest ih =>
    rw [List.cons_append]
    by_cases hb : b = 0
    · simp only [position0, if_pos hb] at h ⊢
      exact h
    · simp only [position0, if_neg hb] at h ⊢
      cases hq : position0 rest with
      | none => rw [hq] at h; simp at h
      | some q =>
        rw [hq] at h
        rw [ih hq]
        exact h

theorem position0_append_none {A : List Nat} (h : position0 A = none)
    (B : List Nat) : position0 (A ++ B) = (position0 B).map (· + A.length) := by
  induction A with
  | nil => simp
  | cons b rest ih =>
    rw [List.cons_append]
    by_cases hb : b = 0
    · simp only [position0, if_pos hb] at h
      simp at h
    · simp only [position0, if_neg hb] at h ⊢
      cases hq : position0 rest with
      | some q => rw [hq] at h; simp at h
      | none =>
        rw [ih hq]
        cases hB : position0 B with
        | none => simp
        | some q =>
          simp only [Option.map_some', List.length_cons]
          rfl

theorem ds_none_take {l : List Nat} {w : Nat} (hw : w ≤ l.length)
    (h : position0 (l.take w) = none) :
    deserialize_string l 0 w = l.take w := by
  rw [deserialize_string_zero]
  have hsplit := position0_append_none h (l.drop w)
  rw [List.take_append_drop] at hsplit
  have hlw : (l.take w).length = w := by rw [List.length_take]; omega
  rw [hlw] at hsplit
  cases hq : position0 (l.drop w) with
  | none =>
    rw [hq] at hsplit
    simp only [Option.map_none'] at hsplit
    rw [hsplit]
  | some q =>
    rw [hq] at hsplit
    simp only [Option.map_some'] at hsplit
    rw [hsplit]
    show (if q + w < w then List.take (q + w) l else List.take w l) = List.take w l
    rw [if_neg (by omega)]

theorem deserialize_string_congr {l1 l2 : List Nat} {w : Nat}
    (h1 : w ≤ l1.length) (h2 : w ≤ l2.length) (he : l1.take w = l2.take w) :
    deserialize_string l1 0 w = deserialize_string l2 0 w := by
  cases hp : position0 (l1.take w) with
  | some p =>
    have hp2 : position0 (l2.take w) = some p := by rw [← he]; exact hp
    have hq1 : position0 l1 = some p := by
      rw [← List.take_append_drop w l1]
      exact position0_append_some hp _
    have hq2 : position0 l2 = some p := by
      rw [← List.take_append_drop w l2]
      exact position0_append_some hp2 _
    have hlt : p < w := by
      have := position0_lt_length hp
      rw [List.length_take] at this
      omega
    rw [deserialize_string_zero, deserialize_string_zero, hq1, hq2]
    show (if p < w then List.take p l1 else List.take w l1)
        = (if p < w then List.take p l2 else List.take w l2)
    rw [if_pos hlt, if_pos hlt]
    have e1 : l1.take p = (l1.take w).take p := by
      rw [List.take_take]
      congr 1
      omega
    have e2 : l2.take p = (l2.take w).take p := by
      rw [List.take_take]
      congr 1
      omega
    rw [e1, e2, he]
  | none =>
    have hp2 : position0 (l2.take w) = none := by rw [← he]; exact hp
    rw [ds_none_take h1 hp, ds_none_take h2 hp2, he]

theorem deserialize_string_drop (s : List Nat) (o w : Nat) :
    deserialize_string s o w = deserialize_string (s.drop o) 0 w := rfl

/-- The first conjunct of PagerWF style facts about allocate_page:
the file, its recorded length and the slot count are untouched. -/
theorem allocate_page_file (pg : Pager) (p : Nat) :
    (pg.allocate_page p).file = pg.file ∧
    (pg.allocate_page p).file_length = pg.file_length ∧
    (pg.allocate_page p).pages.length = pg.pages.length := by
  refine ⟨?_, ?_, ?_⟩ <;>
    (simp only [Pager.allocate_page]
     split_ifs <;> simp [List.length_set])

theorem allocate_page_getD_ne (pg : Pager) {p q : Nat} (h : p ≠ q) :
    (pg.allocate_page p).pages.getD q [] = pg.pages.getD q [] := by
  simp only [Pager.allocate_page]
  split_ifs <;> first
  | rfl
  | exact getD_set_ne_list _ _ h

theorem allocate_page_getD_self (pg : Pager) {p : Nat} (hp : p < pg.pages.length) :
    (pg.allocate_page p).pages.getD p [] =
      (if (pg.pages.getD p []).length = 0 then
        (if p ≤ pg.file_length / PAGE_SIZE +
            (if pg.file_length % PAGE_SIZE ≠ 0 then 1 else 0) then
          (pg.file.drop (p * PAGE_SIZE)).take PAGE_SIZE ++
            List.replicate (PAGE_SIZE - ((pg.file.drop (p * PAGE_SIZE)).take PAGE_SIZE).length) 0
        else List.replicate PAGE_SIZE 0)
      else pg.pages.getD p []) := by
  simp only [Pager.allocate_page]
  split_ifs <;> first
  | rfl
  | exact getD_set_self_list _ _ hp

theorem allocate_page_getD_self_absent (pg : Pager) {p : Nat} (hp : p < pg.pages.length)
    (habs : (pg.pages.getD p []).length = 0)
    (hle : p ≤ pg.file_length / PAGE_SIZE +
      (if pg.file_length % PAGE_SIZE ≠ 0 then 1 else 0)) :
    (pg.allocate_page p).pages.getD p [] =
      (pg.file.drop (p * PAGE_SIZE)).take PAGE_SIZE ++
        List.replicate (PAGE_SIZE - ((pg.file.drop (p * PAGE_SIZE)).take PAGE_SIZE).length) 0 := by
  rw [allocate_page_getD_self pg hp, if_pos habs, if_pos hle]

theorem allocate_page_length_self (pg : Pager) {p : Nat} (hp : p < pg.pages.length)
    (habs : (pg.pages.getD p []).length = 0) :
    ((pg.allocate_page p).pages.getD p []).length = PAGE_SIZE := by
  rw [allocate_page_getD_self pg hp, if_pos habs]
  split_ifs <;>
    (simp only [List.length_append, List.length_replicate, List.length_take]; try omega)

theorem allocate_page_noop (pg : Pager) {p : Nat}
    (h : (pg.pages.getD p []).length ≠ 0) :
    pg.allocate_page p = pg := by
  simp only [Pager.allocate_page]
  rw [if_neg h]

/-- Claim C6: allocate_page is idempotent materialization: a present
slot is left alone, an absent slot past the pages on disk becomes 4096
zero bytes, and an absent slot among the pages on disk becomes the
file bytes of its page range, zero past the end of the file. -/
theorem C6_allocate_page (pg : Pager) (p : Nat) (hp : p < pg.pages.length)
    (hwf : pg.file_length = pg.file.length) :
    ((pg.pages.getD p []).length ≠ 0 → pg.allocate_page p = pg) ∧
    ((pg.pages.getD p []).length = 0 → (pg.file_length + 4095) / 4096 ≤ p →
      (pg.allocate_page p).pages.getD p [] = List.replicate 4096 0) ∧
    ((pg.pages.getD p []).length = 0 → p < (pg.file_length + 4095) / 4096 →
      (pg.allocate_page p).pages.getD p [] =
        (pg.file.drop (p * 4096)).take 4096 ++
          List.replicate (4096 - ((pg.file.drop (p * 4096)).take 4096).length) 0) := by
  refine ⟨fun h => allocate_page_noop pg h, fun habs hge => ?_, fun habs hlt => ?_⟩
  · rw [allocate_page_getD_self pg hp, if_pos habs, PAGE_SIZE_eq]
    have hfl : pg.file.length ≤ p * 4096 := by
      rw [← hwf]
      omega
    have hdrop : pg.file.drop (p * 4096) = [] := List.drop_eq_nil_of_le hfl
    split_ifs with hc hle
    · rw [hdrop, List.take_nil, List.length_nil, List.nil_append, Nat.sub_zero]
    · rfl
    · rw [hdrop, List.take_nil, List.length_nil, List.nil_append, Nat.sub_zero]
    · rfl
  · rw [allocate_page_getD_self pg hp, if_pos habs, PAGE_SIZE_eq]
    rw [if_pos ?hle]
    case hle =>
      split_ifs with hm
      · omega
      · omega

/-- Witness for C6 at a concrete pager holding a short file. -/
theorem C6_allocate_page_witness :
    (((Pager.new (List.replicate 3 9)).pages.getD 0 []).length ≠ 0 →
      (Pager.new (List.replicate 3 9)).allocate_page 0 = Pager.new (List.replicate 3 9)) ∧
    (((Pager.new (List.replicate 3 9)).pages.getD 0 []).length = 0 →
      ((Pager.new (List.replicate 3 9)).file_length + 4095) / 4096 ≤ 0 →
      ((Pager.new (List.replicate 3 9)).allocate_page 0).pages.getD 0 [] =
        List.replicate 4096 0) ∧
    (((Pager.new (List.replicate 3 9)).pages.getD 0 []).length = 0 →
      0 < ((Pager.new (List.replicate 3 9)).file_length + 4095) / 4096 →
      ((Pager.new (List.replicate 3 9)).allocate_page 0).pages.getD 0 [] =
        ((Pager.new (List.replicate 3 9)).file.drop (0 * 4096)).take 4096 ++
          List.replicate
            (4096 - (((Pager.new (List.replicate 3 9)).file.drop (0 * 4096)).take 4096).length) 0) :=
  C6_allocate_page (Pager.new (List.replicate 3 9)) 0 (by decide) (by decide)

/-- Claim C7: the cursor invariant end_of_table iff rowno = nrows,
with rowno at most nrows, holds after from_start and from_end and is
preserved by advance on a cursor that has not reached the end (the
only way the program ever advances). -/
theorem C7_cursor_invariant (t : Table) :
    CursorInv t.nrows (Cursor.from_start t) ∧
    CursorInv t.nrows (Cursor.from_end t) ∧
    (∀ c : Cursor, CursorInv t.nrows c → c.end_of_table = false →
      CursorInv t.nrows (c.advance t.nrows)) := by
  refine ⟨⟨?_, ?_⟩, ⟨?_, ?_⟩, ?_⟩
  · show (t.nrows == 0) = true ↔ 0 = t.nrows
    rw [beq_iff_eq]
    omega
  · show 0 ≤ t.nrows
    omega
  · show true = true ↔ t.nrows = t.nrows
    simp
  · show t.nrows ≤ t.nrows
    omega
  · intro c hc hf
    obtain ⟨hiff, hle⟩ := hc
    have hne : c.rowno ≠ t.nrows := by
      intro he
      rw [hiff.mpr he] at hf
      cases hf
    refine ⟨?_, ?_⟩
    · show (c.rowno + 1 == t.nrows) = true ↔ c.rowno + 1 = t.nrows
      rw [beq_iff_eq]
    · show c.rowno + 1 ≤ t.nrows
      omega

/-- Witness for C7: the invariant transported through an advance on a
concrete mid-table cursor. -/
theorem C7_cursor_invariant_witness :
    CursorInv (5 : Nat) (Cursor.advance ⟨3, false⟩ 5) :=
  (C7_cursor_invariant ⟨5, Pager.new []⟩).2.2 ⟨3, false⟩ (by decide) (by decide)

theorem execute_insert_ok (r : Row) (t : Table) (h : t.nrows < TABLE_MAX_ROWS) :
    ∃ t1, execute_insert r t = Except.ok t1 ∧ t1.nrows = t.nrows + 1 ∧
      t1.pager.file = t.pager.file ∧ t1.pager.file_length = t.pager.file_length ∧
      t1.pager.pages.length = t.pager.pages.length := by
  rw [execute_insert, if_neg (by omega)]
  refine ⟨_, rfl, rfl, ?_, ?_, ?_⟩
  · exact (allocate_page_file t.pager _).1
  · exact (allocate_page_file t.pager _).2.1
  · rw [List.length_set]
    exact (allocate_page_file t.pager _).2.2

theorem insertAllE_ok (rs : List Row) :
    ∀ t : Table, t.nrows + rs.length ≤ TABLE_MAX_ROWS →
      ∃ t1, insertAllE rs t = Except.ok t1 ∧ t1.nrows = t.nrows + rs.length := by
  induction rs with
  | nil => intro t _; exact ⟨t, rfl, by simp⟩
  | cons r rest ih =>
    intro t h
    simp only [List.length_cons] at h
    obtain ⟨t1, h1, h2, _, _, _⟩ := execute_insert_ok r t (by omega)
    obtain ⟨t2, h3, h4⟩ := ih t1 (by omega)
    refine ⟨t2, ?_, by rw [h4, h2]; simp only [List.length_cons]; omega⟩
    rw [insertAllE, h1]
    exact h3

/-- Claim C2: from an empty table, 1400 inserts all succeed; the
1401st insert fails with the message table is full and leaves the
table untouched, its row count still 1400. -/
theorem C2_capacity (rs : List Row) (r : Row) (hlen : rs.length = 1400) :
    ∃ t, insertAllE rs (db_open []) = Except.ok t ∧ t.nrows = 1400 ∧
      execute_insert r t = Except.error "table is full" ∧ insertStep t r = t := by
  have h0 : (db_open ([] : List Nat)).nrows = 0 := rfl
  obtain ⟨t, h1, h2⟩ := insertAllE_ok rs (db_open [])
    (by rw [h0, hlen, TABLE_MAX_ROWS_eq])
  rw [h0, hlen] at h2
  have herr : execute_insert r t = Except.error "table is full" := by
    rw [execute_insert, if_pos (by rw [TABLE_MAX_ROWS_eq]; omega)]
  exact ⟨t, h1, by omega, herr, by rw [insertStep, herr]⟩

/-- Witness for C2 at 1400 concrete inserts. -/
theorem C2_capacity_witness :
    ∃ t, insertAllE (List.replicate 1400 rowJdoe) (db_open []) = Except.ok t ∧
      t.nrows = 1400 ∧
      execute_insert rowJdoe t = Except.error "table is full" ∧
      insertStep t rowJdoe = t :=
  C2_capacity (List.replicate 1400 rowJdoe) rowJdoe (by rw [List.length_replicate])

theorem take_sub_take {l1 l2 : List Nat} {N a b : Nat}
    (h : l1.take N = l2.take N) (hab : a + b ≤ N) :
    (l1.drop a).take b = (l2.drop a).take b := by
  rw [List.take_drop, List.take_drop]
  have e1 : l1.take (a + b) = (l1.take N).take (a + b) := by
    rw [List.take_take, Nat.min_eq_left hab]
  have e2 : l2.take (a + b) = (l2.take N).take (a + b) := by
    rw [List.take_take, Nat.min_eq_left hab]
  rw [e1, e2, h]

/-- Claim C10: statement execution stays in bounds: cursor locations
name page numbers below 100 with slots ending at or before byte 4096,
a page is materialized to exactly 4096 bytes, serialize_row writes
nothing outside its 291-byte slot, and the value deserialize_row
produces depends only on the 291 bytes of its slot. -/
theorem C10_safety :
    (∀ (t : Table) (c : Cursor), c.rowno < TABLE_MAX_ROWS →
      (cursor_value t c).1.1 < TABLE_MAX_PAGES ∧
      (cursor_value t c).1.2 + ROW_SIZE ≤ PAGE_SIZE) ∧
    (∀ (pg : Pager) (p : Nat), PagerWF pg → p < TABLE_MAX_PAGES →
      ((pg.allocate_page p).pages.getD p []).length = PAGE_SIZE) ∧
    (∀ (r : Row) (dest : List Nat) (offset j : Nat), ValidRow r →
      (j < offset ∨ offset + ROW_SIZE ≤ j) →
      (serialize_row r dest offset).getD j 0 = dest.getD j 0) ∧
    (∀ (s1 s2 : List Nat) (offset : Nat), offset + ROW_SIZE ≤ s1.length →
      offset + ROW_SIZE ≤ s2.length →
      (s1.drop offset).take ROW_SIZE = (s2.drop offset).take ROW_SIZE →
      deserialize_row s1 offset = deserialize_row s2 offset) := by
  refine ⟨?_, ?_, ?_, ?_⟩
  · intro t c h
    rw [TABLE_MAX_ROWS_eq] at h
    constructor
    · show c.rowno / ROWS_PER_PAGE < TABLE_MAX_PAGES
      rw [ROWS_PER_PAGE_eq, TABLE_MAX_PAGES_eq]
      omega
    · show c.rowno % ROWS_PER_PAGE * ROW_SIZE + ROW_SIZE ≤ PAGE_SIZE
      rw [ROWS_PER_PAGE_eq, ROW_SIZE_eq, PAGE_SIZE_eq]
      omega
  · intro pg p hwf hp
    have hp1 : p < pg.pages.length := by rw [hwf.1]; exact hp
    rcases hwf.2.2 p hp with habs | hfull
    · exact allocate_page_length_self pg hp1 (by rw [habs]; rfl)
    · rw [allocate_page_noop pg (by rw [hfull, PAGE_SIZE_eq]; omega)]
      exact hfull
  · intro r dest offset j hv hj
    rw [ROW_SIZE_eq] at hj
    rw [serialize_row_eq r dest offset hv.2.1]
    exact writeBytesAt_frame _ _ _ _ (by rw [encRow_length hv]; exact hj)
  · intro s1 s2 offset h1 h2 he
    rw [ROW_SIZE_eq] at h1 h2 he
    have hd1 : ∀ i, i < 291 → s1.getD (offset + i) 0 = s2.getD (offset + i) 0 := by
      intro i hi
      rw [← getD_drop s1 offset i, ← getD_drop s2 offset i,
        ← @getD_take (s1.drop offset) 291 i hi, ← @getD_take (s2.drop offset) 291 i hi, he]
    have hu : deserialize_string s1 (offset + ROW_USERNAME_START) ROW_USERNAME_SIZE =
        deserialize_string s2 (offset + ROW_USERNAME_START) ROW_USERNAME_SIZE := by
      rw [deserialize_string_drop s1, deserialize_string_drop s2,
        ROW_USERNAME_START_eq, ← List.drop_drop, ← List.drop_drop]
      apply deserialize_string_congr
      · rw [ROW_USERNAME_SIZE_eq, List.length_drop, List.length_drop]
        omega
      · rw [ROW_USERNAME_SIZE_eq, List.length_drop, List.length_drop]
        omega
      · rw [ROW_USERNAME_SIZE_eq]
        exact take_sub_take he (by omega)
    have he2 : deserialize_string s1 (offset + ROW_EMAIL_START) ROW_EMAIL_SIZE =
        deserialize_string s2 (offset + ROW_EMAIL_START) ROW_EMAIL_SIZE := by
      rw [deserialize_string_drop s1, deserialize_string_drop s2,
        ROW_EMAIL_START_eq, ← List.drop_drop, ← List.drop_drop]
      apply deserialize_string_congr
      · rw [ROW_EMAIL_SIZE_eq, List.length_drop, List.length_drop]
        omega
      · rw [ROW_EMAIL_SIZE_eq, List.length_drop, List.length_drop]
        omega
      · rw [ROW_EMAIL_SIZE_eq]
        exact take_sub_take he (by omega)
    have h0 : s1.getD offset 0 = s2.getD offset 0 := by
      have := hd1 0 (by omega)
      simpa using this
    ext1
    · show (deserialize_row s1 offset).id = (deserialize_row s2 offset).id
      simp only [deserialize_row]
      rw [h0, hd1 1 (by omega), hd1 2 (by omega), hd1 3 (by omega)]
    · show (deserialize_row s1 offset).username = (deserialize_row s2 offset).username
      simp only [deserialize_row]
      exact hu
    · show (deserialize_row s1 offset).email = (deserialize_row s2 offset).email
      simp only [deserialize_row]
      exact he2

theorem ValidRows_append_left {rs1 rs2 : List Row} (h : ValidRows (rs1 ++ rs2)) :
    ValidRows rs1 :=
  fun r hr => h r (by simp [hr])

theorem ValidRows_append_right {rs1 rs2 : List Row} (h : ValidRows (rs1 ++ rs2)) :
    ValidRows rs2 :=
  fun r hr => h r (by simp [hr])

theorem ValidRows_chunkOf {rs : List Row} (h : ValidRows rs) (p : Nat) :
    ValidRows (chunkOf rs p) :=
  fun r hr => h r (List.mem_of_mem_drop (List.mem_of_mem_take hr))

theorem chunkOf_length (rs : List Row) (p : Nat) :
    (chunkOf rs p).length = min ROWS_PER_PAGE (rs.length - ROWS_PER_PAGE * p) := by
  rw [chunkOf, List.length_take, List.length_drop]

theorem encsFlatten_length {rs : List Row} (h : ValidRows rs) :
    ((rs.map encRow).flatten).length = 291 * rs.length := by
  induction rs with
  | nil => simp
  | cons r rest ih =>
    simp only [List.map_cons, List.flatten_cons, List.length_append, List.length_cons]
    rw [encRow_length (h r (by simp)), ih (fun x hx => h x (by simp [hx]))]
    ring

theorem pageOf_length {chunk : List Row} (hv : ValidRows chunk)
    (hc : chunk.length ≤ 14) : (pageOf chunk).length = PAGE_SIZE := by
  rw [pageOf, List.length_append, List.length_replicate, encsFlatten_length hv,
    ROW_SIZE_eq, PAGE_SIZE_eq]
  omega

theorem pageOf_nil : pageOf [] = List.replicate PAGE_SIZE 0 := by
  rw [pageOf]
  simp only [List.map_nil, List.flatten_nil, List.length_nil, Nat.mul_zero,
    Nat.sub_zero, List.nil_append]

theorem encsFlatten_drop {rs : List Row} (hv : ValidRows rs) (k : Nat) :
    ((rs.map encRow).flatten).drop (291 * k) = ((rs.drop k).map encRow).flatten := by
  induction k generalizing rs with
  | zero => simp
  | succ k ih =>
    cases rs with
    | nil => simp
    | cons r rest =>
      simp only [List.map_cons, List.flatten_cons, List.drop_succ_cons]
      have h1 : 291 * (k + 1) = 291 + 291 * k := by ring
      rw [h1]
      rw [show (291 + 291 * k) = ((encRow r).length + 291 * k) by
        rw [encRow_length (hv r (by simp))]]
      rw [← List.drop_drop, List.drop_left]
      exact ih (fun x hx => hv x (by simp [hx]))

theorem chunkOf_append_frozen {rs : List Row} (r : Row) {p : Nat}
    (h : 14 * p + 14 ≤ rs.length) :
    chunkOf (rs ++ [r]) p = chunkOf rs p := by
  simp only [chunkOf, ROWS_PER_PAGE_eq]
  rw [List.drop_append_of_le_length (by omega),
    List.take_append_of_le_length (by rw [List.length_drop]; omega)]

theorem chunkOf_append_last {rs : List Row} (r : Row) :
    chunkOf (rs ++ [r]) (rs.length / 14) = chunkOf rs (rs.length / 14) ++ [r] := by
  have hm : 14 * (rs.length / 14) ≤ rs.length := by omega
  simp only [chunkOf, ROWS_PER_PAGE_eq]
  rw [List.drop_append_of_le_length hm]
  have hlen : (rs.drop (14 * (rs.length / 14))).length = rs.length % 14 := by
    rw [List.length_drop]
    omega
  rw [List.take_of_length_le (by rw [List.length_append, hlen]; simp; omega),
    List.take_of_length_le (by rw [hlen]; omega)]

theorem chunkOf_last_length (rs : List Row) :
    (chunkOf rs (rs.length / 14)).length = rs.length % 14 := by
  rw [chunkOf_length, ROWS_PER_PAGE_eq]
  omega

theorem serialize_pageOf {chunk : List Row} {r : Row} (hvc : ValidRows chunk)
    (hr : ValidRow r) (hc : chunk.length ≤ 13) :
    serialize_row r (pageOf chunk) (chunk.length * 291) = pageOf (chunk ++ [r]) := by
  have hF : ((chunk.map encRow).flatten).length = 291 * chunk.length := encsFlatten_length hvc
  have hpl : (pageOf chunk).length = PAGE_SIZE := pageOf_length hvc (by omega)
  rw [serialize_row_eq r _ _ hr.2.1]
  rw [writeBytesAt_splice _ _ _
    (by rw [hpl, encRow_length hr, PAGE_SIZE_eq]; omega)]
  rw [encRow_length hr]
  simp only [pageOf]
  rw [show PAGE_SIZE - ROW_SIZE * (chunk ++ [r]).length =
      PAGE_SIZE - ROW_SIZE * chunk.length - 291 by
    simp only [List.length_append, List.length_cons, List.length_nil, ROW_SIZE_eq,
      PAGE_SIZE_eq]
    omega]
  simp only [Nat.mul_comm chunk.length 291]
  rw [← hF, List.take_left]
  rw [List.drop_append_eq_append_drop]
  rw [List.drop_eq_nil_of_le (by omega)]
  rw [List.nil_append]
  rw [show ((chunk.map encRow).flatten).length + 291 - ((chunk.map encRow).flatten).length
      = 291 by omega]
  rw [List.drop_replicate]
  rw [List.map_append, List.flatten_append]
  simp only [List.map_cons, List.map_nil, List.flatten_cons, List.flatten_nil,
    List.append_nil]
  rw [List.append_assoc]

theorem insert_step_inv {rs : List Row} {t : Table} {r : Row}
    (hinv : TableInv rs t) (hv : ValidRows rs) (hr : ValidRow r)
    (hlen : rs.length < 1400) :
    ∃ t1, execute_insert r t = Except.ok t1 ∧ TableInv (rs ++ [r]) t1 := by
  obtain ⟨nr, pg⟩ := t
  obtain ⟨hn, hfile, hflen, hplen, hpages⟩ := hinv
  simp only at hn hfile hflen hplen hpages
  subst hn
  have hplen1 : pg.pages.length = 100 := by rw [hplen]; rfl
  have hp100 : rs.length / 14 < 100 := by omega
  have hchunklen : (chunkOf rs (rs.length / 14)).length = rs.length % 14 :=
    chunkOf_last_length rs
  have hchunkv : ValidRows (chunkOf rs (rs.length / 14)) := ValidRows_chunkOf hv _
  have hpageA : (pg.allocate_page (rs.length / 14)).pages.getD (rs.length / 14) [] =
      pageOf (chunkOf rs (rs.length / 14)) := by
    by_cases hk : 14 * (rs.length / 14) < rs.length
    · have hcur : pg.pages.getD (rs.length / 14) [] =
          pageOf (chunkOf rs (rs.length / 14)) := by
        rw [hpages _ (by rw [TABLE_MAX_PAGES_eq]; omega),
          if_pos (by rw [ROWS_PER_PAGE_eq]; exact hk)]
      rw [allocate_page_noop pg
        (by rw [hcur, pageOf_length hchunkv (by omega), PAGE_SIZE_eq]; omega)]
      exact hcur
    · have hcur : pg.pages.getD (rs.length / 14) [] = [] := by
        rw [hpages _ (by rw [TABLE_MAX_PAGES_eq]; omega),
          if_neg (by rw [ROWS_PER_PAGE_eq]; omega)]
      have hchunknil : chunkOf rs (rs.length / 14) = [] := by
        have h0 := hchunklen
        rw [show rs.length % 14 = 0 by omega, List.length_eq_zero] at h0
        exact h0
      rw [hchunknil, pageOf_nil]
      rw [allocate_page_getD_self pg (by rw [hplen1]; exact hp100),
        if_pos (by rw [hcur]; rfl)]
      rw [hflen, hfile]
      simp only [List.drop_nil, List.take_nil, List.length_nil, Nat.sub_zero,
        List.nil_append]
      split_ifs <;> rfl
  rw [execute_insert, if_neg (by rw [TABLE_MAX_ROWS_eq]; simp only; omega)]
  refine ⟨_, rfl, ?_⟩
  refine ⟨?_, ?_, ?_, ?_, ?_⟩
  · show rs.length + 1 = (rs ++ [r]).length
    simp
  · show (pg.allocate_page _).file = []
    rw [(allocate_page_file pg _).1, hfile]
  · show (pg.allocate_page _).file_length = 0
    rw [(allocate_page_file pg _).2.1, hflen]
  · show ((pg.allocate_page _).pages.set _ _).length = TABLE_MAX_PAGES
    rw [List.length_set, (allocate_page_file pg _).2.2, hplen]
  · intro q hq
    rw [TABLE_MAX_PAGES_eq] at hq
    show ((pg.allocate_page ((Cursor.from_end ⟨rs.length, pg⟩).rowno / ROWS_PER_PAGE)).pages.set
        ((Cursor.from_end ⟨rs.length, pg⟩).rowno / ROWS_PER_PAGE) _).getD q [] = _
    have hce : (Cursor.from_end ⟨rs.length, pg⟩).rowno = rs.length := rfl
    rw [hce]
    simp only [ROWS_PER_PAGE_eq, ROW_SIZE_eq]
    by_cases hqp : rs.length / 14 = q
    · subst hqp
      rw [getD_set_self_list _ _
        (by rw [(allocate_page_file pg _).2.2, hplen1]; exact hp100)]
      show serialize_row r
          ((pg.allocate_page (rs.length / 14)).pages.getD (rs.length / 14) [])
          (rs.length % 14 * 291) =
        if 14 * (rs.length / 14) < (rs ++ [r]).length then
          pageOf (chunkOf (rs ++ [r]) (rs.length / 14)) else []
      rw [hpageA]
      rw [show rs.length % 14 = (chunkOf rs (rs.length / 14)).length from hchunklen.symm]
      rw [serialize_pageOf hchunkv hr (by rw [hchunklen]; omega)]
      rw [if_pos (by simp only [List.length_append, List.length_cons, List.length_nil]; omega)]
      rw [chunkOf_append_last]
    · rw [getD_set_ne_list _ _ hqp, allocate_page_getD_ne pg hqp,
        hpages q (by rw [TABLE_MAX_PAGES_eq]; omega)]
      simp only [ROWS_PER_PAGE_eq, List.length_append, List.length_cons, List.length_nil]
      by_cases hql : 14 * q < rs.length
      · rw [if_pos hql, if_pos (by omega)]
        rw [chunkOf_append_frozen r (by omega)]
      · rw [if_neg hql, if_neg (by omega)]

theorem db_open_empty_inv : TableInv [] (db_open []) := by
  refine ⟨rfl, rfl, rfl, rfl, ?_⟩
  intro p hp
  show (List.replicate TABLE_MAX_PAGES ([] : List Nat)).getD p [] = _
  rw [if_neg (by simp)]
  simp only [List.getD_eq_getElem?_getD, List.getElem?_replicate]
  split <;> rfl

theorem insertAll_inv (rs : List Row) : ∀ (base : List Row) (t : Table),
    TableInv base t → ValidRows (base ++ rs) → (base ++ rs).length ≤ 1400 →
    TableInv (base ++ rs) (insertAll rs t) := by
  induction rs with
  | nil =>
    intro base t h _ _
    simpa using h
  | cons r rest ih =>
    intro base t h hv hlen
    have hb : base.length < 1400 := by
      rw [List.length_append, List.length_cons] at hlen
      omega
    obtain ⟨t1, hok, hinv1⟩ := insert_step_inv h (ValidRows_append_left hv)
      (hv r (by simp)) hb
    have hstep : insertStep t r = t1 := by rw [insertStep, hok]
    have hres := ih (base ++ [r]) t1 hinv1
      (by rw [List.append_assoc]; simpa using hv)
      (by rw [List.append_assoc]; simpa using hlen)
    rw [List.append_cons base r rest]
    show TableInv ((base ++ [r]) ++ rest) (insertAll rest (insertStep t r))
    rw [hstep]
    exact hres

theorem TableInv_GoodPages {rs : List Row} {t : Table} (h : TableInv rs t) :
    GoodPages rs t.pager := by
  refine ⟨h.2.2.2.1, ?_⟩
  intro p hp hlt
  left
  rw [h.2.2.2.2 p hp, if_pos hlt]

theorem allocate_page_getD_self_congr {pg1 pg2 : Pager} {p : Nat}
    (hf : pg1.file = pg2.file) (hl : pg1.file_length = pg2.file_length)
    (hpg : pg1.pages.getD p [] = pg2.pages.getD p [])
    (h1 : p < pg1.pages.length) (h2 : p < pg2.pages.length) :
    (pg1.allocate_page p).pages.getD p [] = (pg2.allocate_page p).pages.getD p [] := by
  rw [allocate_page_getD_self pg1 h1, allocate_page_getD_self pg2 h2, hf, hl, hpg]

theorem GoodPages_allocate_getD {rs : List Row} {pg : Pager} (h : GoodPages rs pg)
    {q : Nat} (hq1 : q < TABLE_MAX_PAGES) (hq2 : ROWS_PER_PAGE * q < rs.length)
    (hv : ValidRows rs) :
    (pg.allocate_page q).pages.getD q [] = pageOf (chunkOf rs q) := by
  rcases h.2 q hq1 hq2 with hpres | ⟨_, hcont⟩
  · rw [allocate_page_noop pg (by
      rw [hpres, pageOf_length (ValidRows_chunkOf hv q)
        (by rw [chunkOf_length, ROWS_PER_PAGE_eq]; omega), PAGE_SIZE_eq]
      omega)]
    exact hpres
  · exact hcont

theorem GoodPages_allocate {rs : List Row} {pg : Pager} (h : GoodPages rs pg)
    {q : Nat} (hq1 : q < TABLE_MAX_PAGES) (hq2 : ROWS_PER_PAGE * q < rs.length)
    (hv : ValidRows rs) :
    GoodPages rs (pg.allocate_page q) := by
  refine ⟨by rw [(allocate_page_file pg q).2.2]; exact h.1, ?_⟩
  intro p hp hlt
  by_cases hpq : q = p
  · subst hpq
    left
    exact GoodPages_allocate_getD h hq1 hq2 hv
  · rcases h.2 p hp hlt with hpres | ⟨habs, hcont⟩
    · left
      rw [allocate_page_getD_ne pg hpq]
      exact hpres
    · right
      refine ⟨by rw [allocate_page_getD_ne pg hpq]; exact habs, ?_⟩
      rw [allocate_page_getD_self_congr (allocate_page_file pg q).1
        (allocate_page_file pg q).2.1 (allocate_page_getD_ne pg hpq)
        (by rw [(allocate_page_file pg q).2.2, h.1]; exact hp)
        (by rw [h.1]; exact hp)]
      exact hcont

theorem pageOf_drop_enc {rs : List Row} {p k : Nat} (hv : ValidRows rs)
    (hk : 14 * p + k < rs.length) (hk13 : k < 14) :
    ∃ rest : List Nat, (pageOf (chunkOf rs p)).drop (k * 291) =
      encRow (rs.getD (14 * p + k) rowJdoe) ++ rest := by
  have hvc : ValidRows (chunkOf rs p) := ValidRows_chunkOf hv p
  have hcl : (chunkOf rs p).length = min 14 (rs.length - 14 * p) := by
    rw [chunkOf_length, ROWS_PER_PAGE_eq]
  have hkc : k < (chunkOf rs p).length := by omega
  have hget : (chunkOf rs p).getD k rowJdoe = rs.getD (14 * p + k) rowJdoe := by
    rw [chunkOf, ROWS_PER_PAGE_eq, List.getD_eq_getElem?_getD, List.getD_eq_getElem?_getD,
      List.getElem?_take, if_pos hk13, List.getElem?_drop]
  refine ⟨(((chunkOf rs p).drop (k + 1)).map encRow).flatten ++
    (List.replicate (PAGE_SIZE - ROW_SIZE * (chunkOf rs p).length) 0).drop
      (k * 291 - ((chunkOf rs p).map encRow).flatten.length), ?_⟩
  rw [pageOf, List.drop_append_eq_append_drop]
  rw [Nat.mul_comm k 291, encsFlatten_drop hvc k]
  rw [List.drop_eq_getElem_cons hkc]
  rw [show (chunkOf rs p)[k] = rs.getD (14 * p + k) rowJdoe from
    (List.getD_eq_getElem (chunkOf rs p) rowJdoe hkc).symm.trans hget]
  simp only [List.map_cons, List.flatten_cons]
  rw [List.append_assoc, Nat.mul_comm 291 k]

theorem natBeq_comm (a b : Nat) : (a == b) = (b == a) := by
  by_cases h : a = b
  · subst h
    rfl
  · have h1 : (a == b) = false := beq_eq_false_iff_ne.mpr h
    have h2 : (b == a) = false := beq_eq_false_iff_ne.mpr (fun hba => h hba.symm)
    rw [h1, h2]

theorem selectLoop_spec (fuel : Nat) : ∀ (rs : List Row) (pg : Pager) (j : Nat),
    rs.length ≤ 1400 → ValidRows rs → GoodPages rs pg → j ≤ rs.length →
    rs.length - j ≤ fuel →
    (selectLoop ⟨rs.length, pg⟩ ⟨j, j == rs.length⟩ fuel).1 =
      (rs.drop j).map normRow := by
  induction fuel with
  | zero =>
    intro rs pg j h1400 hv hgp hj hfuel
    have hjn : j = rs.length := by omega
    subst hjn
    show ([] : List Row) = (rs.drop rs.length).map normRow
    rw [List.drop_length]
    rfl
  | succ fuel ih =>
    intro rs pg j h1400 hv hgp hj hfuel
    by_cases hje : j = rs.length
    · subst hje
      rw [selectLoop, if_pos (beq_self_eq_true rs.length)]
      rw [List.drop_length]
      rfl
    · have hjlt : j < rs.length := by omega
      rw [selectLoop, if_neg (by simp [hje])]
      show deserialize_row ((pg.allocate_page (j / 14)).pages.getD (j / 14) [])
          (j % 14 * 291) ::
          (selectLoop ⟨rs.length, pg.allocate_page (j / 14)⟩
            ⟨j + 1, j + 1 == rs.length⟩ fuel).1
        = (rs.drop j).map normRow
      have hp100 : j / 14 < TABLE_MAX_PAGES := by rw [TABLE_MAX_PAGES_eq]; omega
      have h14 : ROWS_PER_PAGE * (j / 14) < rs.length := by
        rw [ROWS_PER_PAGE_eq]
        omega
      rw [GoodPages_allocate_getD hgp hp100 h14 hv]
      obtain ⟨rest, hrest⟩ := @pageOf_drop_enc rs (j / 14) (j % 14) hv (by omega) (by omega)
      rw [show 14 * (j / 14) + j % 14 = j by omega] at hrest
      have hmem : ValidRow (rs.getD j rowJdoe) := by
        rw [List.getD_eq_getElem rs rowJdoe hjlt]
        exact hv _ (List.getElem_mem hjlt)
      rw [deserialize_row_enc hmem hrest]
      have hgp2 : GoodPages rs (pg.allocate_page (j / 14)) :=
        GoodPages_allocate hgp hp100 h14 hv
      rw [ih rs (pg.allocate_page (j / 14)) (j + 1) h1400 hv hgp2 (by omega) (by omega)]
      rw [List.drop_eq_getElem_cons hjlt, List.map_cons]
      rw [show rs.getD j rowJdoe = rs[j] from List.getD_eq_getElem rs rowJdoe hjlt]

theorem execute_select_spec (rs : List Row) (pg : Pager)
    (h1400 : rs.length ≤ 1400) (hv : ValidRows rs) (hgp : GoodPages rs pg) :
    (execute_select ⟨rs.length, pg⟩).1 = rs.map normRow := by
  rw [execute_select]
  show (selectLoop ⟨rs.length, pg⟩ ⟨0, rs.length == 0⟩ (rs.length + 1)).1 = _
  rw [natBeq_comm rs.length 0]
  rw [selectLoop_spec (rs.length + 1) rs pg 0 h1400 hv hgp (by omega) (by omega)]
  rw [List.drop_zero]

/-- Claim C3: inserting n valid rows into an initially empty table and
then selecting emits exactly those n rows in insertion order, each
equal to its inserted row up to text-field zero-byte truncation. -/
theorem C3_insertion_order (rs : List Row) (hlen : rs.length ≤ 1400)
    (hv : ValidRows rs) :
    (execute_select (insertAll rs (db_open []))).1 = rs.map normRow := by
  have hinv := insertAll_inv rs [] (db_open []) db_open_empty_inv
    (by simpa using hv) (by simpa using hlen)
  simp only [List.nil_append] at hinv
  rcases hT : insertAll rs (db_open []) with ⟨nr, pg2⟩
  rw [hT] at hinv
  have hn : nr = rs.length := hinv.1
  subst hn
  exact execute_select_spec rs pg2 hlen hv (TableInv_GoodPages hinv)

/-- Witness for C3 at one concrete insert. -/
theorem C3_insertion_order_witness :
    (execute_select (insertAll [rowJdoe] (db_open []))).1 = [rowJdoe].map normRow :=
  C3_insertion_order [rowJdoe] (by decide) (by decide)

theorem db_open_nrows (f : List Nat) : (db_open f).nrows = f.length / ROW_SIZE := rfl

theorem fileWrite_append (file data : List Nat) :
    fileWrite file file.length data = file ++ data := by
  rw [fileWrite]
  simp only [Nat.sub_self, List.replicate_zero, List.append_nil]
  rw [List.take_length, List.drop_eq_nil_of_le (by omega), List.append_nil]

theorem flushFullPages_spec {rs : List Row} (hv : ValidRows rs)
    (h1400 : rs.length ≤ 1400) :
    ∀ (m : Nat) (pg : Pager),
    (∀ p, p < TABLE_MAX_PAGES → pg.pages.getD p [] =
      (if ROWS_PER_PAGE * p < rs.length then pageOf (chunkOf rs p) else [])) →
    pg.pages.length = TABLE_MAX_PAGES →
    pg.file = [] →
    m ≤ 100 →
    (∀ i, i < m → 14 * i < rs.length) →
    (flushFullPages pg m).file.length = m * 4096 ∧
    (flushFullPages pg m).pages = pg.pages ∧
    (flushFullPages pg m).file_length = pg.file_length ∧
    (∀ p, p < m → ((flushFullPages pg m).file.drop (p * 4096)).take 4096 =
      pageOf (chunkOf rs p)) := by
  intro m
  induction m with
  | zero =>
    intro pg hpages hplen hfile _ _
    refine ⟨?_, rfl, rfl, ?_⟩
    · rw [show flushFullPages pg 0 = pg from rfl, hfile]
      rfl
    · intro p hp
      omega
  | succ m ih =>
    intro pg hpages hplen hfile hm hlive
    obtain ⟨ihlen, ihpages, ihflen, ihcontent⟩ := ih pg hpages hplen hfile (by omega)
      (fun i hi => hlive i (by omega))
    have hstep : flushFullPages pg (m + 1) =
        (flushFullPages pg m).flush m PAGE_SIZE := by
      rw [flushFullPages, List.range_succ, List.foldl_append]
      rw [show (flushFullPages pg m) = (List.range m).foldl
        (fun acc i => if 0 < (acc.pages.getD i []).length then acc.flush i PAGE_SIZE
          else acc) pg from rfl]
      show (if 0 < ((((List.range m).foldl _ pg)).pages.getD m []).length then _ else _) = _
      rw [if_pos ?hpos]
      case hpos =>
        show 0 < (((flushFullPages pg m)).pages.getD m []).length
        rw [ihpages, hpages m (by rw [TABLE_MAX_PAGES_eq]; omega),
          if_pos (by rw [ROWS_PER_PAGE_eq]; exact hlive m (by omega))]
        rw [pageOf_length (ValidRows_chunkOf hv m)
          (by rw [chunkOf_length, ROWS_PER_PAGE_eq]; omega), PAGE_SIZE_eq]
        omega
    have hpagem : (flushFullPages pg m).pages.getD m [] = pageOf (chunkOf rs m) := by
      rw [ihpages, hpages m (by rw [TABLE_MAX_PAGES_eq]; omega),
        if_pos (by rw [ROWS_PER_PAGE_eq]; exact hlive m (by omega))]
    have hplm : (pageOf (chunkOf rs m)).length = PAGE_SIZE :=
      pageOf_length (ValidRows_chunkOf hv m)
        (by rw [chunkOf_length, ROWS_PER_PAGE_eq]; omega)
    have hfile1 : ((flushFullPages pg m).flush m PAGE_SIZE).file =
        (flushFullPages pg m).file ++ pageOf (chunkOf rs m) := by
      rw [Pager.flush, hpagem, List.take_of_length_le (by rw [hplm])]
      show fileWrite (flushFullPages pg m).file (m * PAGE_SIZE) (pageOf (chunkOf rs m)) =
        _
      rw [show m * PAGE_SIZE = (flushFullPages pg m).file.length by
        rw [ihlen, PAGE_SIZE_eq]]
      exact fileWrite_append _ _
    refine ⟨?_, ?_, ?_, ?_⟩
    · rw [hstep, hfile1, List.length_append, ihlen, hplm, PAGE_SIZE_eq]
      ring
    · rw [hstep]
      show (flushFullPages pg m).pages = pg.pages
      exact ihpages
    · rw [hstep]
      show (flushFullPages pg m).file_length = pg.file_length
      exact ihflen
    · intro p hp
      rw [hstep, hfile1]
      by_cases hpm : p < m
      · rw [List.drop_append_eq_append_drop]
        rw [List.take_append_of_le_length
          (by rw [List.length_drop, ihlen]; omega)]
        exact ihcontent p hpm
      · have hpe : p = m := by omega
        subst hpe
        rw [show p * 4096 = (flushFullPages pg p).file.length from (by rw [ihlen])]
        rw [List.drop_left, List.take_of_length_le (by rw [hplm, PAGE_SIZE_eq])]

theorem validRows_replicate {r : Row} (hr : ValidRow r) (n : Nat) :
    ValidRows (List.replicate n r) := by
  intro x hx
  rw [List.eq_of_mem_replicate hx]
  exact hr

theorem drop_spec {rs : List Row} {t : Table} (hinv : TableInv rs t)
    (hv : ValidRows rs) (h1400 : rs.length ≤ 1400) :
    (t.drop).file.length = rs.length / 14 * 4096 + rs.length % 14 * 291 ∧
    (∀ p, 14 * p < rs.length → ((t.drop).file.drop (p * 4096)).take 4096 ++
      List.replicate (4096 - (((t.drop).file.drop (p * 4096)).take 4096).length) 0 =
      pageOf (chunkOf rs p)) := by
  obtain ⟨nr, pg⟩ := t
  obtain ⟨hn, hfile, hflen, hplen, hpages⟩ := hinv
  simp only at hn hfile hflen hplen hpages
  subst hn
  have hfull100 : rs.length / 14 ≤ 100 := by omega
  obtain ⟨flen, fpages, fflen, fcontent⟩ := flushFullPages_spec hv h1400
    (rs.length / 14) pg hpages hplen hfile hfull100 (fun i hi => by omega)
  have hD : Table.drop ⟨rs.length, pg⟩ =
      (if 0 < rs.length % 14 then
        (if 0 < ((flushFullPages pg (rs.length / 14)).pages.getD (rs.length / 14) []).length
          then (flushFullPages pg (rs.length / 14)).flush (rs.length / 14)
            (rs.length % 14 * ROW_SIZE)
          else flushFullPages pg (rs.length / 14))
      else flushFullPages pg (rs.length / 14)) := by
    rw [Table.drop]
    rfl
  by_cases hrem : 0 < rs.length % 14
  · have hfullpage : (flushFullPages pg (rs.length / 14)).pages.getD (rs.length / 14) []
        = pageOf (chunkOf rs (rs.length / 14)) := by
      rw [fpages, hpages _ (by rw [TABLE_MAX_PAGES_eq]; omega),
        if_pos (by rw [ROWS_PER_PAGE_eq]; omega)]
    have hchv : ValidRows (chunkOf rs (rs.length / 14)) := ValidRows_chunkOf hv _
    have hchl : (chunkOf rs (rs.length / 14)).length = rs.length % 14 :=
      chunkOf_last_length rs
    have hFl : (((chunkOf rs (rs.length / 14)).map encRow).flatten).length =
        291 * (rs.length % 14) := by
      rw [encsFlatten_length hchv, hchl]
    have htake : (pageOf (chunkOf rs (rs.length / 14))).take (rs.length % 14 * 291) =
        ((chunkOf rs (rs.length / 14)).map encRow).flatten := by
      rw [pageOf, List.take_append_of_le_length (by rw [hFl]; omega)]
      rw [List.take_of_length_le (by rw [hFl]; omega)]
    have hDfile : (Table.drop ⟨rs.length, pg⟩).file =
        (flushFullPages pg (rs.length / 14)).file ++
          ((chunkOf rs (rs.length / 14)).map encRow).flatten := by
      have hlenpos : 0 < ((flushFullPages pg (rs.length / 14)).pages.getD
          (rs.length / 14) []).length := by
        rw [hfullpage, pageOf_length hchv (by omega), PAGE_SIZE_eq]
        omega
      rw [hD, if_pos hrem, if_pos hlenpos]
      rw [Pager.flush, hfullpage, ROW_SIZE_eq, htake]
      show fileWrite (flushFullPages pg (rs.length / 14)).file
        (rs.length / 14 * PAGE_SIZE) _ = _
      rw [show rs.length / 14 * PAGE_SIZE =
        (flushFullPages pg (rs.length / 14)).file.length by rw [flen, PAGE_SIZE_eq]]
      exact fileWrite_append _ _
    constructor
    · rw [hDfile, List.length_append, flen, hFl]
      ring
    · intro p hp
      rw [hDfile]
      by_cases hpf : p < rs.length / 14
      · rw [List.drop_append_eq_append_drop]
        rw [List.take_append_of_le_length (by rw [List.length_drop, flen]; omega)]
        rw [fcontent p hpf]
        rw [pageOf_length (ValidRows_chunkOf hv p)
          (by rw [chunkOf_length, ROWS_PER_PAGE_eq]; omega), PAGE_SIZE_eq]
        simp only [Nat.sub_self, List.replicate_zero, List.append_nil]
      · have hpe : p = rs.length / 14 := by omega
        rw [hpe]
        rw [show rs.length / 14 * 4096 =
          (flushFullPages pg (rs.length / 14)).file.length from flen.symm]
        rw [List.drop_left]
        rw [List.take_of_length_le (by rw [hFl]; omega)]
        rw [pageOf, hchl, hFl, ROW_SIZE_eq, PAGE_SIZE_eq]
  · have hDeq : Table.drop ⟨rs.length, pg⟩ = flushFullPages pg (rs.length / 14) := by
      rw [hD, if_neg hrem]
    constructor
    · rw [hDeq, flen]
      omega
    · intro p hp
      rw [hDeq]
      have hpf : p < rs.length / 14 := by omega
      rw [fcontent p hpf]
      rw [pageOf_length (ValidRows_chunkOf hv p)
        (by rw [chunkOf_length, ROWS_PER_PAGE_eq]; omega), PAGE_SIZE_eq]
      simp only [Nat.sub_self, List.replicate_zero, List.append_nil]

/-- Claim C5, amended: after inserting n valid rows (0 < n <= 1400, n
not divisible by 14) into a table opened on an empty file and closing
it, the file holds (n / 14) x 4096 bytes of full pages plus
(n mod 14) x 291 bytes of the last partial page.  The claimed total of
n x 291 bytes holds only for n < 14: each full page is flushed as 4096
bytes, which exceeds its 14 x 291 = 4074 data bytes by the 22 padding
bytes. -/
theorem C5_partial_flush_amended (rs : List Row) (h0 : 0 < rs.length)
    (h1400 : rs.length ≤ 1400) (hnd : ¬ (14 ∣ rs.length)) (hv : ValidRows rs) :
    ((insertAll rs (db_open [])).drop).file.length =
      rs.length / 14 * 4096 + rs.length % 14 * 291 := by
  have hinv := insertAll_inv rs [] (db_open []) db_open_empty_inv
    (by simpa using hv) (by simpa using h1400)
  simp only [List.nil_append] at hinv
  exact (drop_spec hinv hv h1400).1

/-- Witness for the amended C5 at 15 concrete inserts. -/
theorem C5_partial_flush_amended_witness :
    ((insertAll (List.replicate 15 rowJdoe) (db_open [])).drop).file.length =
      (List.replicate 15 rowJdoe).length / 14 * 4096 +
        (List.replicate 15 rowJdoe).length % 14 * 291 :=
  C5_partial_flush_amended (List.replicate 15 rowJdoe)
    (by rw [List.length_replicate]; omega)
    (by rw [List.length_replicate]; omega)
    (by rw [List.length_replicate]; decide)
    (validRows_replicate (by decide) 15)

/-- Counterexample for C5 as stated: after 15 inserts a clean close
leaves 4387 bytes in the file, not 15 x 291 = 4365 (the first full
page is flushed as 4096 bytes, 22 more than its 4074 data bytes). -/
theorem C5_partial_flush_counterexample :
    ((insertAll (List.replicate 15 rowJdoe) (db_open [])).drop).file.length = 4387 ∧
    ¬ ((insertAll (List.replicate 15 rowJdoe) (db_open [])).drop).file.length
      = 15 * 291 := by
  have hv : ValidRows (List.replicate 15 rowJdoe) := validRows_replicate (by decide) 15
  have hinv := insertAll_inv (List.replicate 15 rowJdoe) [] (db_open [])
    db_open_empty_inv (by simpa using hv)
    (by rw [List.nil_append, List.length_replicate]; omega)
  simp only [List.nil_append] at hinv
  have h := (drop_spec hinv hv (by rw [List.length_replicate]; omega)).1
  rw [List.length_replicate] at h
  exact ⟨by rw [h], by rw [h]; decide⟩

/-- Claim C4, amended: opening a table on an empty file, inserting n
valid rows, destroying the table and reopening on the written file
recovers nrows = n and the same select sequence, but only for
n <= 195.  From n = 196 on (14 or more flushed full pages), the 22
padding bytes per full page accumulate past one row width and
file_length / 291 overcounts the rows. -/
theorem C4_persistence_amended (rs : List Row) (h195 : rs.length ≤ 195)
    (hv : ValidRows rs) :
    (db_open ((insertAll rs (db_open [])).drop).file).nrows = rs.length ∧
    (execute_select (db_open ((insertAll rs (db_open [])).drop).file)).1 =
      rs.map normRow := by
  have h1400 : rs.length ≤ 1400 := by omega
  have hinv := insertAll_inv rs [] (db_open []) db_open_empty_inv
    (by simpa using hv) (by simpa using h1400)
  simp only [List.nil_append] at hinv
  obtain ⟨hflen2, hfcontent⟩ := drop_spec hinv hv h1400
  have hn2 : (db_open ((insertAll rs (db_open [])).drop).file).nrows = rs.length := by
    show ((insertAll rs (db_open [])).drop).file.length / ROW_SIZE = rs.length
    rw [ROW_SIZE_eq, hflen2]
    omega
  refine ⟨hn2, ?_⟩
  have hgp : GoodPages rs (Pager.new ((insertAll rs (db_open [])).drop).file) := by
    refine ⟨rfl, ?_⟩
    intro p hp hlt
    right
    have habs : (Pager.new ((insertAll rs (db_open [])).drop).file).pages.getD p []
        = [] := by
      show (List.replicate TABLE_MAX_PAGES ([] : List Nat)).getD p [] = []
      simp only [List.getD_eq_getElem?_getD, List.getElem?_replicate]
      split <;> rfl
    refine ⟨habs, ?_⟩
    rw [ROWS_PER_PAGE_eq] at hlt
    rw [allocate_page_getD_self_absent _
      (by show p < (List.replicate TABLE_MAX_PAGES ([] : List Nat)).length
          rw [List.length_replicate]
          exact hp)
      (by rw [habs]; rfl) ?hle]
    case hle =>
      rw [PAGE_SIZE_eq]
      show p ≤ ((insertAll rs (db_open [])).drop).file.length / 4096 +
        (if ((insertAll rs (db_open [])).drop).file.length % 4096 ≠ 0 then 1 else 0)
      rw [hflen2]
      split_ifs <;> omega
    rw [PAGE_SIZE_eq]
    show (((insertAll rs (db_open [])).drop).file.drop (p * 4096)).take 4096 ++
      List.replicate
        (4096 - ((((insertAll rs (db_open [])).drop).file.drop (p * 4096)).take 4096).length)
        0 = pageOf (chunkOf rs p)
    exact hfcontent p hlt
  have hdb : db_open ((insertAll rs (db_open [])).drop).file =
      ⟨rs.length, Pager.new ((insertAll rs (db_open [])).drop).file⟩ := by
    calc db_open ((insertAll rs (db_open [])).drop).file
        = ⟨(Pager.new ((insertAll rs (db_open [])).drop).file).file_length / ROW_SIZE,
            Pager.new ((insertAll rs (db_open [])).drop).file⟩ := rfl
      _ = ⟨rs.length, Pager.new ((insertAll rs (db_open [])).drop).file⟩ := by
          rw [show (Pager.new ((insertAll rs (db_open [])).drop).file).file_length
              / ROW_SIZE = rs.length from hn2]
  rw [hdb]
  exact execute_select_spec rs _ h1400 hv hgp

/-- Witness for the amended C4 at one concrete insert. -/
theorem C4_persistence_amended_witness :
    (db_open ((insertAll [rowJdoe] (db_open [])).drop).file).nrows =
      [rowJdoe].length ∧
    (execute_select (db_open ((insertAll [rowJdoe] (db_open [])).drop).file)).1 =
      [rowJdoe].map normRow :=
  C4_persistence_amended [rowJdoe] (by decide) (by decide)

/-- Counterexample for C4 as stated: after 196 inserts and a clean
close, reopening recovers nrows = 197, not 196, because the file holds
14 x 4096 = 57344 bytes and 57344 / 291 = 197. -/
theorem C4_persistence_counterexample :
    (db_open ((insertAll (List.replicate 196 rowJdoe) (db_open [])).drop).file).nrows
      = 197 ∧
    ¬ (db_open ((insertAll (List.replicate 196 rowJdoe) (db_open [])).drop).file).nrows
      = 196 := by
  have hv : ValidRows (List.replicate 196 rowJdoe) :=
    validRows_replicate (by decide) 196
  have hinv := insertAll_inv (List.replicate 196 rowJdoe) [] (db_open [])
    db_open_empty_inv (by simpa using hv)
    (by rw [List.nil_append, List.length_replicate]; omega)
  simp only [List.nil_append] at hinv
  have h := (drop_spec hinv hv (by rw [List.length_replicate]; omega)).1
  rw [List.length_replicate] at h
  have hn : (db_open ((insertAll (List.replicate 196 rowJdoe) (db_open [])).drop).file).nrows
      = 197 := by
    rw [db_open_nrows, ROW_SIZE_eq, h]
  exact ⟨hn, by rw [hn]; omega⟩

/-- Claim C9: a successful insert on a well-formed table with n <
1400 rows bumps the row count by exactly one and mutates exactly the
291-byte slot of row n inside page n / 14, writing the serialized row
there; every other page is untouched, every byte of page n / 14
outside the slot keeps the value of the materialized page content (the
lazily loaded bytes, when the insert itself materializes the page),
and the file together with its recorded length is unchanged. -/
theorem C9_insert_frame (t : Table) (r : Row) (hwf : PagerWF t.pager)
    (hn : t.nrows < 1400) (hr : ValidRow r) :
    ∃ t1, execute_insert r t = Except.ok t1 ∧
      t1.nrows = t.nrows + 1 ∧
      t1.pager.file = t.pager.file ∧
      t1.pager.file_length = t.pager.file_length ∧
      (∀ q, ¬ (t.nrows / 14 = q) →
        t1.pager.pages.getD q [] = t.pager.pages.getD q []) ∧
      (∀ j, j < t.nrows % 14 * 291 ∨ t.nrows % 14 * 291 + 291 ≤ j →
        (t1.pager.pages.getD (t.nrows / 14) []).getD j 0 =
          ((t.pager.allocate_page (t.nrows / 14)).pages.getD (t.nrows / 14) []).getD j 0) ∧
      (∀ j, j < 291 →
        (t1.pager.pages.getD (t.nrows / 14) []).getD (t.nrows % 14 * 291 + j) 0 =
          (encRow r).getD j 0) := by
  obtain ⟨nr, pg⟩ := t
  simp only at hn hwf ⊢
  have hplen : pg.pages.length = 100 := by rw [hwf.1]; rfl
  have hp100 : nr / 14 < 100 := by omega
  have hA : ((pg.allocate_page (nr / 14)).pages.getD (nr / 14) []).length = 4096 := by
    rcases hwf.2.2 (nr / 14) (by rw [TABLE_MAX_PAGES_eq]; omega) with habs | hfull
    · rw [show (4096 : Nat) = PAGE_SIZE from rfl]
      exact allocate_page_length_self pg (by rw [hplen]; exact hp100)
        (by rw [habs]; rfl)
    · rw [allocate_page_noop pg (by rw [hfull, PAGE_SIZE_eq]; omega), hfull, PAGE_SIZE_eq]
  rw [execute_insert, if_neg (by rw [TABLE_MAX_ROWS_eq]; simp only; omega)]
  refine ⟨_, rfl, ?_, ?_, ?_, ?_, ?_, ?_⟩
  · show nr + 1 = nr + 1
    rfl
  · show (pg.allocate_page _).file = pg.file
    exact (allocate_page_file pg _).1
  · show (pg.allocate_page _).file_length = pg.file_length
    exact (allocate_page_file pg _).2.1
  · intro q hq
    show ((pg.allocate_page (nr / ROWS_PER_PAGE)).pages.set (nr / ROWS_PER_PAGE) _).getD q []
      = pg.pages.getD q []
    have hq1 : nr / ROWS_PER_PAGE ≠ q := by rw [ROWS_PER_PAGE_eq]; exact hq
    rw [getD_set_ne_list _ _ hq1, allocate_page_getD_ne pg hq1]
  · intro j hj
    show ((((pg.allocate_page (nr / ROWS_PER_PAGE)).pages.set (nr / ROWS_PER_PAGE)
        (serialize_row r ((pg.allocate_page (nr / ROWS_PER_PAGE)).pages.getD
          (nr / ROWS_PER_PAGE) []) (nr % ROWS_PER_PAGE * ROW_SIZE)))).getD (nr / 14) []).getD j 0
      = ((pg.allocate_page (nr / 14)).pages.getD (nr / 14) []).getD j 0
    rw [show nr / ROWS_PER_PAGE = nr / 14 from by rw [ROWS_PER_PAGE_eq]]
    rw [show nr % ROWS_PER_PAGE * ROW_SIZE = nr % 14 * 291 from by
      rw [ROWS_PER_PAGE_eq, ROW_SIZE_eq]]
    rw [getD_set_self_list _ _ (by rw [(allocate_page_file pg _).2.2, hplen]; exact hp100)]
    rw [serialize_row_eq r _ _ hr.2.1]
    exact writeBytesAt_frame _ _ _ _ (by rw [encRow_length hr]; exact hj)
  · intro j hj
    show ((((pg.allocate_page (nr / ROWS_PER_PAGE)).pages.set (nr / ROWS_PER_PAGE)
        (serialize_row r ((pg.allocate_page (nr / ROWS_PER_PAGE)).pages.getD
          (nr / ROWS_PER_PAGE) []) (nr % ROWS_PER_PAGE * ROW_SIZE)))).getD (nr / 14) []).getD
        (nr % 14 * 291 + j) 0
      = (encRow r).getD j 0
    rw [show nr / ROWS_PER_PAGE = nr / 14 from by rw [ROWS_PER_PAGE_eq]]
    rw [show nr % ROWS_PER_PAGE * ROW_SIZE = nr % 14 * 291 from by
      rw [ROWS_PER_PAGE_eq, ROW_SIZE_eq]]
    rw [getD_set_self_list _ _ (by rw [(allocate_page_file pg _).2.2, hplen]; exact hp100)]
    rw [serialize_row_eq r _ _ hr.2.1]
    rw [writeBytesAt_splice _ _ _ (by rw [hA, encRow_length hr]; omega)]
    have htl : ((((pg.allocate_page (nr / 14)).pages.getD (nr / 14) []).take
        (nr % 14 * 291))).length = nr % 14 * 291 := by
      rw [List.length_take, hA]
      omega
    rw [getD_append_right _ (by rw [htl]; omega)]
    rw [htl, show nr % 14 * 291 + j - nr % 14 * 291 = j by omega]
    exact getD_append_left _ (by rw [encRow_length hr]; omega)

/-- Witness for C9 at the empty table and a concrete row. -/
theorem C9_insert_frame_witness :
    ∃ t1, execute_insert rowJdoe (db_open []) = Except.ok t1 ∧
      t1.nrows = (db_open ([] : List Nat)).nrows + 1 ∧
      t1.pager.file = (db_open ([] : List Nat)).pager.file ∧
      t1.pager.file_length = (db_open ([] : List Nat)).pager.file_length ∧
      (∀ q, ¬ ((db_open ([] : List Nat)).nrows / 14 = q) →
        t1.pager.pages.getD q [] = (db_open ([] : List Nat)).pager.pages.getD q []) ∧
      (∀ j, j < (db_open ([] : List Nat)).nrows % 14 * 291 ∨
          (db_open ([] : List Nat)).nrows % 14 * 291 + 291 ≤ j →
        (t1.pager.pages.getD ((db_open ([] : List Nat)).nrows / 14) []).getD j 0 =
          (((db_open ([] : List Nat)).pager.allocate_page
              ((db_open ([] : List Nat)).nrows / 14)).pages.getD
            ((db_open ([] : List Nat)).nrows / 14) []).getD j 0) ∧
      (∀ j, j < 291 →
        (t1.pager.pages.getD ((db_open ([] : List Nat)).nrows / 14) []).getD
            ((db_open ([] : List Nat)).nrows % 14 * 291 + j) 0 =
          (encRow rowJdoe).getD j 0) :=
  C9_insert_frame (db_open []) rowJdoe (by decide) (by decide) (by decide)

/-- Claim C8: the parser yields no statement for an insert whose
username exceeds 32 bytes, or whose email exceeds 255 bytes, or whose
identifier does not parse as a u32 (non-numeric or out of range,
exactly the cases where parse_u32 is none). -/
theorem C8_parser_rejects (command : String)
    (hins : "insert ".data.isPrefixOf command.data)
    (h4 : (split_ascii_whitespace command).length = 4)
    (hbad : 32 < (strBytes ((split_ascii_whitespace command).getD 2 [])).length ∨
      255 < (strBytes ((split_ascii_whitespace command).getD 3 [])).length ∨
      parse_u32 ((split_ascii_whitespace command).getD 1 []) = none) :
    prepare_statement command = none := by
  rw [prepare_statement, if_pos hins, if_pos (by rw [h4]; rfl)]
  by_cases hlen : (ROW_USERNAME_SIZE <
      (strBytes ((split_ascii_whitespace command).getD 2 [])).length ||
      ROW_EMAIL_SIZE < (strBytes ((split_ascii_whitespace command).getD 3 [])).length) = true
  · rw [if_pos hlen]
  · rw [if_neg hlen]
    have hid : parse_u32 ((split_ascii_whitespace command).getD 1 []) = none := by
      rcases hbad with h | h | h
      · exfalso
        apply hlen
        rw [Bool.or_eq_true]
        left
        rw [decide_eq_true_iff]
        rw [ROW_USERNAME_SIZE_eq]
        omega
      · exfalso
        apply hlen
        rw [Bool.or_eq_true]
        right
        rw [decide_eq_true_iff]
        rw [ROW_EMAIL_SIZE_eq]
        omega
      · exact h
    rw [hid]

set_option maxRecDepth 40000 in
/-- Witness for C8: the literal scenario S2 command is rejected. -/
theorem C8_parser_rejects_witness :
    prepare_statement
      "insert 1 a-string-that-has-more-than-32-characters-in-it user@example.com" = none :=
  C8_parser_rejects
    "insert 1 a-string-that-has-more-than-32-characters-in-it user@example.com"
    (by decide) (by decide) (Or.inl (by decide))

/-- Witness for C10 at concrete cursors, pagers and buffers. -/
theorem C10_safety_witness :
    ((cursor_value (db_open []) ⟨5, false⟩).1.1 < TABLE_MAX_PAGES ∧
      (cursor_value (db_open []) ⟨5, false⟩).1.2 + ROW_SIZE ≤ PAGE_SIZE) ∧
    (((Pager.new []).allocate_page 3).pages.getD 3 []).length = PAGE_SIZE ∧
    ((serialize_row rowJdoe (List.replicate 4096 0) 0).getD 3000 0 =
      (List.replicate 4096 0).getD 3000 0) ∧
    deserialize_row (List.replicate 300 1) 0 = deserialize_row (List.replicate 300 1) 0 :=
  ⟨C10_safety.1 (db_open []) ⟨5, false⟩ (by decide),
   C10_safety.2.1 (Pager.new []) 3 (by decide) (by decide),
   C10_safety.2.2.1 rowJdoe (List.replicate 4096 0) 0 3000 (by decide) (Or.inr (by decide)),
   C10_safety.2.2.2 (List.replicate 300 1) (List.replicate 300 1) 0 (by decide) (by decide) rfl⟩

end DB
